import Mathlib

/-!
Verification development for the summify repository.

The definitions below are a shallow embedding of the code under
`src/src/utils/textProcessing.ts`, `src/src/app/api/summarize/route.ts`
and the Express server (`src/unnamed/part_003`).  JavaScript strings are
modelled as `List Char` (a sequence of code units); JavaScript numbers
that can be negative (for example the `-1` returned by `lastIndexOf`)
are modelled with `Option Nat` or `Int` as indicated at each definition.
The stateful components (worker pool, rate limiter) are modelled as
explicit state-transition functions over the events of the single
JavaScript execution context.
-/

namespace Summify

set_option maxRecDepth 6000

/-- JavaScript strings as sequences of characters. -/
abbrev Str := List Char

/-! ## JavaScript string primitives -/

/-- `String.prototype.substring(a, b)`: clamps both indices to
`[0, length]` and swaps them when `a > b`. -/
def jsSubstring (s : Str) (a b : Nat) : Str :=
  let a' := min a s.length
  let b' := min b s.length
  (s.drop (min a' b')).take (max a' b' - min a' b')

/-- Character at index `i` (`none` when out of range). -/
def charAt (s : Str) (i : Nat) : Option Char :=
  (s.drop i).head?

/-- Worker for `jsLastIndexOf?`: walks the string once, remembering the
last position `≤ fromIdx` at which `needle` starts; stops as soon as the
position exceeds `fromIdx`. -/
def lastIndexOfAux (needle : Str) (fromIdx : Nat) : Str → Nat → Option Nat → Option Nat
  | [], _, best => best
  | c :: rest, i, best =>
    if fromIdx < i then best
    else lastIndexOfAux needle fromIdx rest (i + 1)
      (if needle.isPrefixOf (c :: rest) then some i else best)

/-- `String.prototype.lastIndexOf(needle, fromIdx)`: the largest index
`p ≤ fromIdx` at which `needle` occurs (the occurrence may extend past
`fromIdx`); `none` models JavaScript's `-1`. -/
def jsLastIndexOf? (s needle : Str) (fromIdx : Nat) : Option Nat :=
  lastIndexOfAux needle fromIdx s 0 none

/-- `lastIndexOf` with JavaScript's `-1` answer made explicit, for the
places where the code compares the result with other signed numbers. -/
def jsLastIndexOfInt (s needle : Str) (fromIdx : Nat) : Int :=
  match jsLastIndexOf? s needle fromIdx with
  | some p => (p : Int)
  | none => -1

/-- Worker for `firstIndexFrom`: first position `≥ start` at which
`needle` starts. -/
def firstIndexFromAux (needle : Str) (start : Nat) : Str → Nat → Option Nat
  | [], _ => none
  | c :: rest, i =>
    if start ≤ i ∧ needle.isPrefixOf (c :: rest) then some i
    else firstIndexFromAux needle start rest (i + 1)

/-- First occurrence of `needle` in `s` starting at or after `start`
(the search position of a global regex / `indexOf(needle, start)`). -/
def firstIndexFrom (s needle : Str) (start : Nat) : Option Nat :=
  firstIndexFromAux needle start s 0

/-! ## Code-block and header detection

`chunkText` first collects fenced code blocks with the global regex
``/```[\s\S]*?```/g`` and markdown headers with `/^#{1,6}\s+.+$/gm`
(textProcessing.ts lines 16-33, part_003 lines 509-526). -/

/-- The fence delimiter `` ``` ``. -/
def ticks : Str := ['`', '`', '`']

/-- Successive non-greedy matches of ``/```[\s\S]*?```/g``: from the
current search position, the next match starts at the first `` ``` ``
and ends right after the earliest following `` ``` ``; `exec` resumes
at the match end.  A block is the pair (start index, end index)
with the end exclusive, exactly `match.index + match[0].length`. -/
def findCodeBlocksGo (s : Str) : Nat → Nat → List (Nat × Nat)
  | 0, _ => []
  | fuel + 1, i =>
    match firstIndexFrom s ticks i with
    | none => []
    | some j =>
      match firstIndexFrom s ticks (j + 3) with
      | none => []
      | some k => (j, k + 3) :: findCodeBlocksGo s fuel (k + 3)

/-- All fenced code blocks of `s`. -/
def findCodeBlocks (s : Str) : List (Nat × Nat) :=
  findCodeBlocksGo s (s.length + 1) 0

/-- JavaScript's `\s` character class. -/
def isJsSpace (c : Char) : Bool :=
  c = ' ' ∨ c = '\t' ∨ c = '\n' ∨ c = '\x0b' ∨ c = '\x0c' ∨ c = '\r' ∨
  c = ' ' ∨ c = ' ' ∨ c = ' ' ∨ c = ' ' ∨ c = ' ' ∨
  c = ' ' ∨ c = ' ' ∨ c = ' ' ∨ c = ' ' ∨ c = ' ' ∨
  c = ' ' ∨ c = ' ' ∨ c = ' ' ∨ c = ' ' ∨ c = ' ' ∨
  c = ' ' ∨ c = ' ' ∨ c = '　' ∨ c = '﻿'

/-- JavaScript line terminators (what `.` refuses and multiline `^`/`$`
anchor around). -/
def isJsNewline (c : Char) : Bool :=
  c = '\n' ∨ c = '\r' ∨ c = ' ' ∨ c = ' '

/-- Largest `t` with `1 ≤ t ≤ w` such that the character at offset `t`
of `rest` exists and is not a line terminator; this is the greedy
backtracking split of `\s+` before `.+` (offsets `1 … w` are the
whitespace run, so backtracked positions hold whitespace characters,
which `.` accepts only when they are not line terminators). -/
def headerSplit (rest : Str) : Nat → Option Nat
  | 0 => none
  | t + 1 =>
    match charAt rest (t + 1) with
    | some c => if isJsNewline c then headerSplit rest t else some (t + 1)
    | none => headerSplit rest t

/-- Match attempt of `/^#{1,6}\s+.+$/m` at a line-start position `i`
(position `0` or a position preceded by a line terminator).  Returns the
exclusive end of the match when it succeeds: `#{1,6}` must take the
whole run of `#` (1 to 6 of them), `\s+` takes the greedy backtracked
amount, and `.+$` then extends to the next line terminator or the end
of the string. -/
def headerMatchEnd (s : Str) (i : Nat) : Option Nat :=
  let rest := s.drop i
  let hashes := (rest.takeWhile (fun c => c = '#')).length
  if hashes = 0 ∨ 6 < hashes then none
  else
    let afterHash := rest.drop hashes
    let w := (afterHash.takeWhile isJsSpace).length
    if w = 0 then none
    else
      match headerSplit afterHash w with
      | none => none
      | some t =>
        let k := i + hashes + t
        some (k + ((s.drop k).takeWhile (fun c => ¬ isJsNewline c)).length)

/-- Is `p` a multiline `^` anchor position of `s`? -/
def isLineStart (s : Str) (p : Nat) : Bool :=
  decide (p = 0) ||
    match charAt s (p - 1) with
    | some c => isJsNewline c
    | none => false

/-- First header match at a position `≥ li`, with its end. -/
def findHeaderFromAux (s : Str) : Nat → Nat → Option (Nat × Nat)
  | 0, _ => none
  | fuel + 1, p =>
    if s.length ≤ p then none
    else if isLineStart s p then
      match headerMatchEnd s p with
      | some e => some (p, e)
      | none => findHeaderFromAux s fuel (p + 1)
    else findHeaderFromAux s fuel (p + 1)

/-- Successive matches of `/^#{1,6}\s+.+$/gm`, reported by start index;
`exec` resumes searching at the end of the previous match. -/
def findHeadersGo (s : Str) : Nat → Nat → List Nat
  | 0, _ => []
  | fuel + 1, li =>
    match findHeaderFromAux s (s.length + 1) li with
    | none => []
    | some (p, e) => p :: findHeadersGo s fuel e

/-- All markdown header positions of `s`. -/
def findHeaders (s : Str) : List Nat :=
  findHeadersGo s (s.length + 1) 0

/-! ## The chunking loop

Shared by `textProcessing.ts` (lines 35-110) and `part_003`
(lines 528-603); the two loop bodies are character-for-character
identical, the TypeScript version running it with `maxChunkSize` and
the server version with `effectiveChunkSize`. -/

/-- The code-block guard (textProcessing.ts lines 42-48): the first
block with `currentIndex < block.end && endIndex > block.start &&
endIndex < block.end` moves `endIndex` to `block.end`, then `break`s. -/
def applyCodeBlockGuard (blocks : List (Nat × Nat)) (currentIndex endIndex : Nat) : Nat :=
  match blocks.find? (fun b =>
      decide (currentIndex < b.2) && decide (b.1 < endIndex) && decide (endIndex < b.2)) with
  | some b => b.2
  | none => endIndex

/-- The sentence enders of textProcessing.ts line 84. -/
def sentenceEnders : List Str :=
  [['.', ' '], ['!', ' '], ['?', ' '], ['.', '\n'], ['!', '\n'], ['?', '\n']]

/-- One step of the sentence-ender loop of textProcessing.ts
lines 87-92: the ender's `lastIndexOf` replaces the current best when it
is larger, after `currentIndex`, and within 200 characters of
`endIndex` (all comparisons on JavaScript numbers, hence `Int`). -/
def sentenceStep (text : Str) (currentIndex endIndex : Nat) (best : Int) (ender : Str) : Int :=
  let e := jsLastIndexOfInt text ender endIndex
  if best < e ∧ (currentIndex : Int) < e ∧ (endIndex : Int) - 200 < e then e else best

/-- `bestSentenceEnd` after the loop of textProcessing.ts lines 85-92,
starting from `-1`. -/
def bestSentenceEnd (text : Str) (currentIndex endIndex : Nat) : Int :=
  sentenceEnders.foldl (sentenceStep text currentIndex endIndex) (-1)

/-- Header stage of the boundary search (textProcessing.ts lines
53-62): the first header after `currentIndex`, before `endIndex` and
within 500 characters of it has quality 4. -/
def boundaryStage1 (headers : List Nat) (currentIndex endIndex : Nat) : Nat × Nat :=
  match headers.filter (fun h =>
      decide (currentIndex < h) && decide (h < endIndex) &&
        decide ((endIndex : Int) - 500 < (h : Int))) with
  | h :: _ => (h, 4)
  | [] => (endIndex, 0)

/-- Paragraph stage (lines 65-71): when no header was found, a `"\n\n"`
after `currentIndex` and within 500 characters of `endIndex` gives the
boundary `paragraphBreak + 2` with quality 3. -/
def boundaryStage2 (text : Str) (currentIndex endIndex : Nat) (s1 : Nat × Nat) : Nat × Nat :=
  if s1.2 < 4 then
    match jsLastIndexOf? text ['\n', '\n'] endIndex with
    | some p =>
      if currentIndex < p ∧ (endIndex : Int) - 500 < (p : Int) then (p + 2, 3) else s1
    | none => s1
  else s1

/-- Line stage (lines 74-80): a `'\n'` after `currentIndex` and within
300 characters of `endIndex` gives `lineBreak + 1` with quality 2. -/
def boundaryStage3 (text : Str) (currentIndex endIndex : Nat) (s2 : Nat × Nat) : Nat × Nat :=
  if s2.2 < 3 then
    match jsLastIndexOf? text ['\n'] endIndex with
    | some l =>
      if currentIndex < l ∧ (endIndex : Int) - 300 < (l : Int) then (l + 1, 2) else s2
    | none => s2
  else s2

/-- Sentence stage (lines 83-99): a positive `bestSentenceEnd` gives
the boundary after the two-character ender with quality 1. -/
def boundaryStage4 (text : Str) (currentIndex endIndex : Nat) (s3 : Nat × Nat) : Nat × Nat :=
  if s3.2 < 2 then
    let best := bestSentenceEnd text currentIndex endIndex
    if 0 < best then
      let bs := best.toNat
      (bs + (jsSubstring text bs (bs + 2)).length, 1)
    else s3
  else s3

/-- The boundary search of textProcessing.ts lines 50-106, entered only
when `endIndex < text.length`: headers (quality 4), then paragraph
breaks (3), then line breaks (2), then sentence enders (1); the final
`endIndex` is the best boundary when some quality was positive. -/
def selectBoundary (text : Str) (headers : List Nat) (currentIndex endIndex : Nat) : Nat :=
  let s4 := boundaryStage4 text currentIndex endIndex
    (boundaryStage3 text currentIndex endIndex
      (boundaryStage2 text currentIndex endIndex
        (boundaryStage1 headers currentIndex endIndex)))
  if 0 < s4.2 then s4.1 else endIndex

/-- One iteration's final `endIndex`: the tentative
`min(currentIndex + chunkSize, text.length)`, the code-block guard,
then the boundary search (skipped when the end already reaches the end
of the text). -/
def chunkLoopEnd (text : Str) (chunkSize : Nat) (blocks : List (Nat × Nat))
    (headers : List Nat) (currentIndex : Nat) : Nat :=
  let e0 := min (currentIndex + chunkSize) text.length
  let e1 := applyCodeBlockGuard blocks currentIndex e0
  if e1 < text.length then selectBoundary text headers currentIndex e1 else e1

/-- The `while (currentIndex < text.length)` loop, with explicit fuel:
`none` models non-termination within the given fuel. -/
def chunkLoop (text : Str) (chunkSize : Nat) (blocks : List (Nat × Nat))
    (headers : List Nat) : Nat → Nat → Option (List Str)
  | 0, _ => none
  | fuel + 1, currentIndex =>
    if currentIndex < text.length then
      (chunkLoop text chunkSize blocks headers fuel
          (chunkLoopEnd text chunkSize blocks headers currentIndex)).map
        (jsSubstring text currentIndex
          (chunkLoopEnd text chunkSize blocks headers currentIndex) :: ·)
    else some []

/-- `chunkText` of `src/src/utils/textProcessing.ts` (lines 6-113):
texts that fit in one chunk are returned whole, otherwise the loop runs
with `maxChunkSize`.  The fuel `text.length + 1` is proved sufficient
below whenever `1 ≤ maxChunkSize`. -/
def chunkTextTS? (text : Str) (maxChunkSize : Nat) : Option (List Str) :=
  if text.length ≤ maxChunkSize then some [text]
  else chunkLoop text maxChunkSize (findCodeBlocks text) (findHeaders text) (text.length + 1) 0

/-! ## The server variant with the small-chunk merge pass -/

/-- `getOptimalChunkSize` of part_003 (lines 461-479); `Math.ceil` on a
halved integer is `(n + 1) / 2`. -/
def getOptimalChunkSize (textLength : Nat) : Nat :=
  if textLength ≤ 180000 then textLength
  else if textLength ≤ 360000 then (textLength + 1) / 2
  else 180000

/-- `MIN_CHUNK_SIZE` of the merge pass (part_003 line 607). -/
def MIN_CHUNK_SIZE : Nat := 3000

/-- Worker for the merge pass (part_003 lines 610-629): a chunk shorter
than `MIN_CHUNK_SIZE` that is not the first chunk is appended to the
previous output chunk with a `"\n\n"` separator, provided the two
lengths sum to at most `maxChunkSize`.  `merged` is the `mergedChunks`
array, `i` the loop index. -/
def mergeGo (maxChunkSize : Nat) : List Str → List Str → Nat → List Str
  | [], merged, _ => merged
  | cur :: rest, merged, i =>
    if cur.length < MIN_CHUNK_SIZE ∧ 0 < i then
      match merged.getLast? with
      | some prev =>
        if prev.length + cur.length ≤ maxChunkSize then
          mergeGo maxChunkSize rest
            (merged.dropLast ++ [prev ++ ['\n', '\n'] ++ cur]) (i + 1)
        else mergeGo maxChunkSize rest (merged ++ [cur]) (i + 1)
      | none => mergeGo maxChunkSize rest (merged ++ [cur]) (i + 1)
    else mergeGo maxChunkSize rest (merged ++ [cur]) (i + 1)

/-- The small-chunk merge pass of part_003 (lines 605-631). -/
def mergeSmallChunks (maxChunkSize : Nat) (chunks : List Str) : List Str :=
  mergeGo maxChunkSize chunks [] 0

/-- `chunkText` of part_003 (lines 486-632): single chunk when the text
fits or is at most 50000 characters, otherwise the shared loop with
`effectiveChunkSize = min(maxChunkSize, getOptimalChunkSize(length))`
followed by the merge pass (which compares against `maxChunkSize`,
not the effective size). -/
def chunkTextJS? (text : Str) (maxChunkSize : Nat) : Option (List Str) :=
  if text.length ≤ maxChunkSize then some [text]
  else if text.length ≤ 50000 then some [text]
  else
    (chunkLoop text (min maxChunkSize (getOptimalChunkSize text.length))
        (findCodeBlocks text) (findHeaders text) (text.length + 1) 0).map
      (mergeSmallChunks maxChunkSize)

/-- Concatenation of the chunks in index order. -/
def joinChunks (cs : List Str) : Str := cs.flatten

/-- Length of the longest run of non-whitespace characters (the longest
"unbreakable token"). -/
def longestTokenLen (s : Str) : Nat :=
  ((s.splitOnP isJsSpace).map List.length).foldr max 0

/-- Invariant carried through the four boundary stages: a positive
quality means the boundary lies strictly after `currentIndex`, the
boundary never exceeds `endIndex + 2`, and quality zero means the
boundary is still the untouched `endIndex`. -/
def BoundaryInv (c e : Nat) (s : Nat × Nat) : Prop :=
  (0 < s.2 → c < s.1) ∧ s.1 ≤ e + 2 ∧ (s.2 = 0 → s.1 = e)

/-! ## The retrying invoker

`processChunk` (route.ts lines 52-114 und 381-454, part_003 lines
658-709) wraps one external call in a retry loop:
`while (retryCount < maxRetries) { try { …; return } catch {
retryCount++; if (retryCount >= maxRetries) throw;
wait(2 ** retryCount * 1000) } }`.  The external call is opaque; it is
modelled as an oracle giving the outcome of each attempt.  The code
never inspects the error's classification: every caught error takes the
same path. -/

/-- Outcome of one external call attempt. -/
inductive CallOutcome
  | success
  | failure
deriving Repr, DecidableEq

/-- The retry loop.  `retryCount` is the variable of the source, `fuel`
bounds the iterations (instantiated with `maxRetries`, which the loop
never exceeds).  Returns (number of attempts made, backoff waits in
milliseconds between attempts, whether the unit of work succeeded). -/
def processChunkGo (call : Nat → CallOutcome) (maxRetries : Nat) :
    Nat → Nat → Nat × List Nat × Bool
  | _, 0 => (0, [], false)
  | retryCount, fuel + 1 =>
    if retryCount < maxRetries then
      match call retryCount with
      | .success => (1, [], true)
      | .failure =>
        if maxRetries ≤ retryCount + 1 then (1, [], false)
        else
          (((processChunkGo call maxRetries (retryCount + 1) fuel).1 + 1 : Nat),
            2 ^ (retryCount + 1) * 1000 ::
              (processChunkGo call maxRetries (retryCount + 1) fuel).2.1,
            (processChunkGo call maxRetries (retryCount + 1) fuel).2.2)
    else (0, [], false)

/-- A full run of `processChunk` against the attempt oracle `call`:
(attempts, waits, success).  A `false` result is the error surfaced to
the caller after the loop. -/
def processChunkRun (maxRetries : Nat) (call : Nat → CallOutcome) : Nat × List Nat × Bool :=
  processChunkGo call maxRetries 0 maxRetries

/-- The exponential backoff series `2^start * 1000, 2^(start+1) * 1000, …`
of the given length. -/
def expWaits (start : Nat) : Nat → List Nat
  | 0 => []
  | n + 1 => 2 ^ start * 1000 :: expWaits (start + 1) n

/-! ## The worker pool

`WorkerPool` of part_003 (lines 712-906).  Only the bookkeeping that
the claims are about is modelled: the task queue length, the busy
worker count, `activeRequests`, and the pending per-task timeout of
`executeTask` (lines 843-848).  `incs`/`decs` are ghost counters of how
often `activeRequests++` and `activeRequests--` executed.
`activeRequests` is an `Int` because nothing in the code stops it from
going below zero. -/

structure PoolState where
  tasksQueued : Nat
  active : Int
  maxConcurrent : Nat
  size : Nat
  busy : Nat
  timeoutArmed : Bool
  incs : Nat
  decs : Nat
deriving Repr, DecidableEq

/-- `processQueue` (lines 821-837): while tasks are queued,
`activeRequests < maxConcurrentRequests` and an idle worker exists,
dequeue a task, mark the worker busy, increment `activeRequests` and
fire off `executeTask`, which arms the per-task timeout. -/
def poolProcessQueue : Nat → PoolState → PoolState
  | 0, s => s
  | fuel + 1, s =>
    if 0 < s.tasksQueued ∧ s.active < (s.maxConcurrent : Int) ∧ s.busy < s.size then
      poolProcessQueue fuel
        { s with
          tasksQueued := s.tasksQueued - 1
          busy := s.busy + 1
          active := s.active + 1
          incs := s.incs + 1
          timeoutArmed := true }
    else s

/-- Events of the single JavaScript execution context relevant to the
pool's counters, for a run with one submitted task. -/
inductive PoolEvent
  | addTask
  | timeoutFire
  | settleSuccess
deriving Repr, DecidableEq

/-- One event step.
* `addTask` (lines 788-813): push the task and call `processQueue`.
* `timeoutFire` (lines 843-848): when the per-task timeout expires
  before the task settles, the callback frees the worker, decrements
  `activeRequests` and calls `processQueue`; a cleared timeout never
  fires, which the `timeoutArmed` flag captures.
* `settleSuccess` (lines 850-861 and the `finally` of lines 886-894):
  `clearTimeout`, resolve, then the `finally` block unconditionally
  frees the worker, decrements `activeRequests` and calls
  `processQueue` — regardless of whether the timeout already fired. -/
def poolStep (s : PoolState) : PoolEvent → PoolState
  | .addTask =>
    poolProcessQueue (s.tasksQueued + 1) { s with tasksQueued := s.tasksQueued + 1 }
  | .timeoutFire =>
    if s.timeoutArmed then
      poolProcessQueue (s.tasksQueued + 1)
        { s with
          timeoutArmed := false
          busy := s.busy - 1
          active := s.active - 1
          decs := s.decs + 1 }
    else s
  | .settleSuccess =>
    poolProcessQueue (s.tasksQueued + 1)
      { s with
        timeoutArmed := false
        busy := s.busy - 1
        active := s.active - 1
        decs := s.decs + 1 }

/-- A fresh pool with the server defaults
(`MAX_WORKER_POOL_SIZE = 10`, `MAX_CONCURRENT_REQUESTS = 25`,
constructor lines 713-736). -/
def initialPool : PoolState :=
  { tasksQueued := 0, active := 0, maxConcurrent := 25, size := 10, busy := 0
    timeoutArmed := false, incs := 0, decs := 0 }

/-- Run a sequence of pool events. -/
def runPool (evs : List PoolEvent) : PoolState :=
  evs.foldl poolStep initialPool

/-! ## The rate limiter

`RateLimiter` of part_003 (lines 909-981).  All mutations happen on the
single JavaScript execution context; each `acquire` path is
`canMakeRequest()` (which prunes `requestTimestamps` in place) followed
— when it returns true — by `recordRequest()`.  Waiters are appended to
`waitingQueue` (`push`) and served from its front (`shift`) by the
100 ms interval callback. -/

/-- The in-place pruning filter of `canMakeRequest` (lines 921-924):
keep the timestamps younger than one minute. -/
def prune (now : Nat) (ts : List Nat) : List Nat :=
  ts.filter (fun t => decide (now - t < 60000))

/-- Rate limiter state.  `granted` (ghost) records every granted
(`id`, time) pair in order; `enqueued` and `servedFromQueue` (ghost)
record the ids pushed to and shifted from the waiting queue. -/
structure RLState where
  maxPerMinute : Nat
  timestamps : List Nat
  waitingQueue : List Nat
  granted : List (Nat × Nat)
  enqueued : List Nat
  servedFromQueue : List Nat
deriving Repr, DecidableEq

/-- Events: a caller invoking `waitForAvailableSlot` at a given time,
or one tick of the 100 ms interval of `processQueue`. -/
inductive RLEvent
  | request (id : Nat) (now : Nat)
  | tick (now : Nat)
deriving Repr, DecidableEq

/-- The time at which an event executes. -/
def evTime : RLEvent → Nat
  | .request _ now => now
  | .tick now => now

/-- One event step.
* `request` (lines 936-952): the fast path grants immediately when
  `canMakeRequest()` holds — it never looks at the waiting queue —
  otherwise the caller is appended to `waitingQueue`.
* `tick` (lines 956-971): `canMakeRequest()` prunes; when it holds and
  the queue is non-empty the front waiter is granted (`recordRequest`,
  `shift`, resolve). -/
def rlStep (s : RLState) : RLEvent → RLState
  | .request id now =>
    if (prune now s.timestamps).length < s.maxPerMinute then
      { s with
        timestamps := prune now s.timestamps ++ [now]
        granted := s.granted ++ [(id, now)] }
    else
      { s with
        timestamps := prune now s.timestamps
        waitingQueue := s.waitingQueue ++ [id]
        enqueued := s.enqueued ++ [id] }
  | .tick now =>
    if (prune now s.timestamps).length < s.maxPerMinute then
      match s.waitingQueue with
      | id :: restQueue =>
        { s with
          timestamps := prune now s.timestamps ++ [now]
          waitingQueue := restQueue
          granted := s.granted ++ [(id, now)]
          servedFromQueue := s.servedFromQueue ++ [id] }
      | [] => { s with timestamps := prune now s.timestamps }
    else { s with timestamps := prune now s.timestamps }

/-- A fresh limiter (constructor lines 910-915). -/
def initialRL (maxPerMinute : Nat) : RLState :=
  { maxPerMinute := maxPerMinute, timestamps := [], waitingQueue := []
    granted := [], enqueued := [], servedFromQueue := [] }

/-- Run a sequence of limiter events. -/
def runRL (maxPerMinute : Nat) (evs : List RLEvent) : RLState :=
  evs.foldl rlStep (initialRL maxPerMinute)

/-- Is a granted time inside the sliding window `[a, a + 60000)`? -/
def inWindow (a : Nat) (g : Nat) : Bool :=
  decide (a ≤ g) && decide (g < a + 60000)

/-! ## Aggregation policy of the orchestrators -/

/-- The streaming handler's skip condition (part_003 line 1388):
`validSummaries.length <= 4 || validSummaries.length === 2`. -/
def streamSkipsMeta (n : Nat) : Bool :=
  decide (n ≤ 4) || decide (n = 2)

/-- Number of meta-summary LLM calls the streaming handler issues for
`n` valid summaries (part_003 lines 1386-1424: skip and concatenate, or
fall through to exactly one `createMetaSummary`-style call). -/
def streamSecondCallCount (n : Nat) : Nat :=
  if streamSkipsMeta n then 0 else 1

/-- Number of meta-summary LLM calls `route.ts`'s `POST` issues for `n`
chunk summaries (lines 239-264: only `summaries.length === 1` returns
directly; every other count calls `createMetaSummary` once). -/
def routeSecondCallCount (n : Nat) : Nat :=
  if n = 1 then 0 else 1

/-- Section label of the direct concatenation (part_003 lines
1393-1404). -/
def sectionLabel (n index : Nat) (summary : Str) : Str :=
  if n = 1 then summary
  else if n = 2 then
    (if index = 0 then "## First Part\n\n".data else "## Second Part\n\n".data) ++ summary
  else "## Part ".data ++ Nat.toDigits 10 (index + 1) ++ "\n\n".data ++ summary

/-- The direct concatenation of the streaming handler (part_003 lines
1393-1404): label each summary and join with `"\n\n---\n\n"`. -/
def streamCombine (validSummaries : List Str) : Str :=
  joinChunks
    (((validSummaries.enum).map
        (fun p => sectionLabel validSummaries.length p.1 p.2)).intersperse
      "\n\n---\n\n".data)

/-! ## Chunk-failure handling of the streaming handler -/

/-- The placeholder stored for a failed chunk (part_003 line 1340). -/
def errorPlaceholder : Str := "[Error processing this section]".data

/-- The batch error handler (part_003 lines 1337-1342): for the batch's
index range, every falsy entry (`!summaries[i]`, so `null` or the empty
string) becomes the placeholder string. -/
def markBatchFailures (summaries : List (Option Str)) (batchStart batchEnd : Nat) :
    List (Option Str) :=
  (summaries.enum).map (fun p =>
    if batchStart ≤ p.1 ∧ p.1 < batchEnd ∧ (p.2 = none ∨ p.2 = some []) then
      some errorPlaceholder
    else p.2)

/-- The final validity check (part_003 lines 1372-1376):
`validSummaries = summaries.filter(s => s !== null)`; only an empty
result raises the hard error `"All chunks failed processing"`. -/
def finalizeSummaries (summaries : List (Option Str)) : Except Str (List Str) :=
  if (summaries.filterMap id).length = 0 then
    .error "All chunks failed processing".data
  else .ok (summaries.filterMap id)

/-- The split property of a grant-time sequence: when the `k`-th grant
was made, the still-young earlier grants numbered strictly fewer than
`m` (this is exactly the `canMakeRequest` guard). -/
def SplitProp (m : Nat) (l : List Nat) : Prop :=
  ∀ (k : Nat) (hk : k < l.length), (prune (l.get ⟨k, hk⟩) (l.take k)).length < m

/-- Invariant of a limiter run, relative to a lower bound `T` on all
future event times: the stored timestamps are exactly the still-young
grant times, every grant time is at most `T`, the grant times are
non-decreasing, and every grant passed the `canMakeRequest` guard. -/
def RLInv (m T : Nat) (s : RLState) : Prop :=
  s.maxPerMinute = m ∧
  (∀ g ∈ s.granted, g.2 ≤ T) ∧
  (s.granted.map Prod.snd).Pairwise (· ≤ ·) ∧
  s.timestamps = prune T (s.granted.map Prod.snd) ∧
  SplitProp m (s.granted.map Prod.snd)

/-! ## Concrete inputs used by the counterexamples -/

/-- 25-character text whose fenced block spans `[4, 15)`. -/
def c2Text : Str := "aaaa```b\n\ncc```dddddddddd".data

/-- 11-character text with a paragraph break starting exactly at the
tentative end for size 5. -/
def c9Text : Str := "aaaaa\n\nbbbb".data

/-- Tail of `c1Text` from position 1763: a run of `e`s and the fenced
code block. -/
def c1Tail4 : Str :=
  List.replicate 737 'e' ++ (ticks ++ (List.replicate 47694 'z' ++ ticks))

/-- Tail of `c1Text` from position 1462: the `d` section, the fourth
header line and `c1Tail4`. -/
def c1Tail3 : Str :=
  List.replicate 298 'd' ++ (['\n', '#', ' '] ++ c1Tail4)

/-- Tail of `c1Text` from position 1083. -/
def c1Tail2 : Str :=
  List.replicate 376 'c' ++ (['\n', '#', ' '] ++ c1Tail3)

/-- Tail of `c1Text` from position 782. -/
def c1Tail1 : Str :=
  List.replicate 298 'b' ++ (['\n', '#', ' '] ++ c1Tail2)

/-- 50200-character text (the merge pass of the server `chunkText` only
runs for texts longer than 50000 characters): four short `"# …"`
header sections followed by one huge fenced code block, arranged so
that every chunk boundary is selected by the header stage and the
second and third chunks (301 and 379 characters) get merged. -/
def c1Text : Str :=
  List.replicate 779 'a' ++ (['\n', '#', ' '] ++ c1Tail1)

/-! ## Basic facts about the string primitives -/

theorem lastIndexOfAux_le (needle : Str) (fromIdx : Nat) :
    ∀ (s : Str) (i : Nat) (best : Option Nat),
      (∀ q, best = some q → q ≤ fromIdx) →
      ∀ p, lastIndexOfAux needle fromIdx s i best = some p → p ≤ fromIdx := by
  intro s
  induction s with
  | nil => intro i best hb p hp; exact hb p hp
  | cons c rest ih =>
    intro i best hb p hp
    rw [lastIndexOfAux] at hp
    by_cases hlt : fromIdx < i
    · rw [if_pos hlt] at hp; exact hb p hp
    · rw [if_neg hlt] at hp
      refine ih (i + 1) _ ?_ p hp
      intro q hq
      by_cases hpre : needle.isPrefixOf (c :: rest)
      · rw [if_pos hpre] at hq
        cases hq
        omega
      · rw [if_neg hpre] at hq; exact hb q hq

theorem jsLastIndexOf?_le (s needle : Str) (fromIdx : Nat) :
    ∀ p, jsLastIndexOf? s needle fromIdx = some p → p ≤ fromIdx := by
  intro p hp
  exact lastIndexOfAux_le needle fromIdx s 0 none (by intro q hq; cases hq) p hp

theorem jsLastIndexOfInt_le (s needle : Str) (fromIdx : Nat) :
    jsLastIndexOfInt s needle fromIdx ≤ (fromIdx : Int) := by
  rw [jsLastIndexOfInt]
  split
  · next p h => exact_mod_cast jsLastIndexOf?_le s needle fromIdx p h
  · have := Int.natCast_nonneg fromIdx; omega

/-- Length of a `substring` is at most the index difference. -/
theorem jsSubstring_length_le (s : Str) (a b : Nat) (hab : a ≤ b) :
    (jsSubstring s a b).length ≤ b - a := by
  rw [jsSubstring]
  simp only [List.length_take, List.length_drop]
  omega

/-- A `substring` followed by the rest of the string restores the
suffix it was cut from. -/
theorem jsSubstring_append_drop (s : Str) (a b : Nat) (hab : a ≤ b) (ha : a ≤ s.length) :
    jsSubstring s a b ++ s.drop b = s.drop a := by
  rw [jsSubstring]
  have ha' : min a s.length = a := by omega
  by_cases hb : b ≤ s.length
  · have hb' : min b s.length = b := by omega
    simp only [ha', hb']
    have hmin : min a b = a := by omega
    have hmax : max a b = b := by omega
    rw [hmin, hmax]
    have : s.drop b = (s.drop a).drop (b - a) := by
      rw [List.drop_drop]; congr 1; omega
    rw [this, List.take_append_drop]
  · have hb' : min b s.length = s.length := by omega
    simp only [ha', hb']
    have hmax : max a s.length = s.length := by omega
    rw [hmax]
    have hdrop : s.drop b = [] := by
      apply List.drop_eq_nil_of_le; omega
    rw [hdrop, List.append_nil]
    apply List.take_of_length_le
    simp only [List.length_drop]
    omega

/-! ## Bounds on the boundary search -/

theorem foldl_sentenceStep_cases (text : Str) (c e : Nat) :
    ∀ (l : List Str) (acc : Int),
      (acc = -1 ∨ ((c : Int) < acc ∧ acc ≤ (e : Int))) →
      (l.foldl (sentenceStep text c e) acc = -1 ∨
        ((c : Int) < l.foldl (sentenceStep text c e) acc ∧
          l.foldl (sentenceStep text c e) acc ≤ (e : Int))) := by
  intro l
  induction l with
  | nil => intro acc hacc; exact hacc
  | cons ender rest ih =>
    intro acc hacc
    rw [List.foldl_cons]
    apply ih
    rw [sentenceStep]
    split
    · next hcond =>
      right
      refine ⟨hcond.2.1, ?_⟩
      exact jsLastIndexOfInt_le text ender e
    · exact hacc

theorem bestSentenceEnd_cases (text : Str) (c e : Nat) :
    bestSentenceEnd text c e = -1 ∨
      ((c : Int) < bestSentenceEnd text c e ∧ bestSentenceEnd text c e ≤ (e : Int)) := by
  rw [bestSentenceEnd]
  exact foldl_sentenceStep_cases text c e sentenceEnders (-1) (Or.inl rfl)

theorem boundaryStage1_inv (headers : List Nat) (c e : Nat) :
    BoundaryInv c e (boundaryStage1 headers c e) := by
  rw [boundaryStage1]
  split
  · next h rest hn =>
    have hmem : h ∈ headers.filter (fun h =>
        decide (c < h) && decide (h < e) && decide ((e : Int) - 500 < (h : Int))) := by
      rw [hn]; exact List.mem_cons_self h rest
    have := List.of_mem_filter hmem
    simp only [Bool.and_eq_true, decide_eq_true_eq] at this
    exact ⟨fun _ => this.1.1, by omega, by omega⟩
  · exact ⟨by omega, by omega, fun _ => rfl⟩

theorem boundaryStage2_inv (text : Str) (c e : Nat) (s1 : Nat × Nat)
    (h1 : BoundaryInv c e s1) :
    BoundaryInv c e (boundaryStage2 text c e s1) := by
  rw [boundaryStage2]
  split
  · split
    · next p hp =>
      split
      · next hcond =>
        have := jsLastIndexOf?_le text ['\n', '\n'] e p hp
        exact ⟨fun _ => by omega, by omega, by omega⟩
      · exact h1
    · exact h1
  · exact h1

theorem boundaryStage3_inv (text : Str) (c e : Nat) (s2 : Nat × Nat)
    (h2 : BoundaryInv c e s2) :
    BoundaryInv c e (boundaryStage3 text c e s2) := by
  rw [boundaryStage3]
  split
  · split
    · next l hl =>
      split
      · next hcond =>
        have := jsLastIndexOf?_le text ['\n'] e l hl
        exact ⟨fun _ => by omega, by omega, by omega⟩
      · exact h2
    · exact h2
  · exact h2

theorem boundaryStage4_inv (text : Str) (c e : Nat) (s3 : Nat × Nat)
    (h3 : BoundaryInv c e s3) :
    BoundaryInv c e (boundaryStage4 text c e s3) := by
  rw [boundaryStage4]
  split
  · simp only
    split
    · next hpos =>
      rcases bestSentenceEnd_cases text c e with hneg | ⟨hgt, hle⟩
      · rw [hneg] at hpos; omega
      · have hcbs : c < (bestSentenceEnd text c e).toNat := by omega
        have hbse : (bestSentenceEnd text c e).toNat ≤ e := by omega
        have hsub : (jsSubstring text (bestSentenceEnd text c e).toNat
            ((bestSentenceEnd text c e).toNat + 2)).length ≤ 2 := by
          have := jsSubstring_length_le text (bestSentenceEnd text c e).toNat
            ((bestSentenceEnd text c e).toNat + 2) (by omega)
          omega
        exact ⟨fun _ => by omega, by omega, by omega⟩
    · exact h3
  · exact h3

theorem selectBoundary_inv (text : Str) (headers : List Nat) (c e : Nat) :
    BoundaryInv c e (boundaryStage4 text c e
      (boundaryStage3 text c e
        (boundaryStage2 text c e (boundaryStage1 headers c e)))) :=
  boundaryStage4_inv text c e _
    (boundaryStage3_inv text c e _
      (boundaryStage2_inv text c e _ (boundaryStage1_inv headers c e)))

/-- Every boundary the search can choose lies strictly after
`currentIndex` and at most two characters past the tentative end. -/
theorem selectBoundary_bounds (text : Str) (headers : List Nat) (c e : Nat) (hce : c < e) :
    c < selectBoundary text headers c e ∧ selectBoundary text headers c e ≤ e + 2 := by
  rw [selectBoundary]
  have h4 := selectBoundary_inv text headers c e
  rw [BoundaryInv] at h4
  split
  · next hq => exact ⟨h4.1 hq, h4.2.1⟩
  · exact ⟨hce, by omega⟩

/-- Relaxed version usable when only `c ≤ e` is known. -/
theorem selectBoundary_ge (text : Str) (headers : List Nat) (c e : Nat) (hce : c ≤ e) :
    c ≤ selectBoundary text headers c e ∧ selectBoundary text headers c e ≤ e + 2 := by
  rw [selectBoundary]
  have h4 := selectBoundary_inv text headers c e
  rw [BoundaryInv] at h4
  split
  · next hq => exact ⟨le_of_lt (h4.1 hq), h4.2.1⟩
  · exact ⟨hce, by omega⟩

/-! ## Bounds on one loop iteration -/

/-- The code-block guard never moves the end backwards. -/
theorem applyCodeBlockGuard_ge (blocks : List (Nat × Nat)) (c e : Nat) :
    e ≤ applyCodeBlockGuard blocks c e := by
  rw [applyCodeBlockGuard]
  split
  · next b hb =>
    have := List.find?_some hb
    simp only [Bool.and_eq_true, decide_eq_true_eq] at this
    omega
  · exact le_rfl

/-- On a text with no code blocks the guard is the identity. -/
theorem applyCodeBlockGuard_nil (c e : Nat) : applyCodeBlockGuard [] c e = e := rfl

/-- Each iteration strictly advances `currentIndex` as long as the
chunk size is positive (every accepted boundary lies strictly after
`currentIndex`, the hard cut advances by `chunkSize`, and the
code-block guard only moves the end forward). -/
theorem chunkLoopEnd_lt (text : Str) (S : Nat) (blocks : List (Nat × Nat))
    (headers : List Nat) (c : Nat) (hS : 1 ≤ S) (hc : c < text.length) :
    c < chunkLoopEnd text S blocks headers c := by
  rw [chunkLoopEnd]
  have he0 : c < min (c + S) text.length := by omega
  have he1 := applyCodeBlockGuard_ge blocks c (min (c + S) text.length)
  split
  · next hlt => exact (selectBoundary_bounds text headers c _ (by omega)).1
  · omega

/-- Each iteration's end never falls before `currentIndex`. -/
theorem chunkLoopEnd_ge (text : Str) (S : Nat) (blocks : List (Nat × Nat))
    (headers : List Nat) (c : Nat) (hc : c < text.length) :
    c ≤ chunkLoopEnd text S blocks headers c := by
  rw [chunkLoopEnd]
  have he0 : c ≤ min (c + S) text.length := by omega
  have he1 := applyCodeBlockGuard_ge blocks c (min (c + S) text.length)
  split
  · exact (selectBoundary_ge text headers c _ (by omega)).1
  · omega

/-- On a text with no code blocks, each chunk end stays within
`chunkSize + 2` of the chunk start (a boundary match starting exactly
at the tentative end overshoots by the length of the matched
separator). -/
theorem chunkLoopEnd_le (text : Str) (S : Nat) (headers : List Nat) (c : Nat) :
    chunkLoopEnd text S [] headers c ≤ c + S + 2 := by
  rw [chunkLoopEnd, applyCodeBlockGuard_nil]
  split
  · have := (selectBoundary_ge text headers c (min (c + S) text.length) (by omega)).2
    omega
  · omega

/-! ## Termination, reconstruction and size of the loop -/

/-- With a positive chunk size, fuel `text.length - c + 1` always
suffices and the loop returns a chunk list, non-empty whenever any text
remains. -/
theorem chunkLoop_some (text : Str) (S : Nat) (blocks : List (Nat × Nat))
    (headers : List Nat) (hS : 1 ≤ S) :
    ∀ (fuel c : Nat), text.length - c < fuel →
      ∃ cs, chunkLoop text S blocks headers fuel c = some cs ∧
        (c < text.length → cs ≠ []) := by
  intro fuel
  induction fuel with
  | zero => intro c hfuel; omega
  | succ fuel ih =>
    intro c hfuel
    rw [chunkLoop]
    by_cases hc : c < text.length
    · rw [if_pos hc]
      have hadv := chunkLoopEnd_lt text S blocks headers c hS hc
      obtain ⟨cs, hcs, _⟩ := ih (chunkLoopEnd text S blocks headers c) (by omega)
      exact ⟨_, by rw [hcs]; rfl, fun _ => by simp⟩
    · rw [if_neg hc]
      exact ⟨[], rfl, fun h => absurd h hc⟩

/-- Whatever chunk list the loop returns, its concatenation is exactly
the unprocessed suffix of the text: boundary selection never drops,
duplicates or inserts characters. -/
theorem chunkLoop_join (text : Str) (S : Nat) (blocks : List (Nat × Nat))
    (headers : List Nat) :
    ∀ (fuel c : Nat) (cs : List Str),
      chunkLoop text S blocks headers fuel c = some cs →
      joinChunks cs = text.drop c := by
  intro fuel
  induction fuel with
  | zero => intro c cs h; cases h
  | succ fuel ih =>
    intro c cs h
    rw [chunkLoop] at h
    by_cases hc : c < text.length
    · rw [if_pos hc] at h
      cases hrec : chunkLoop text S blocks headers fuel
          (chunkLoopEnd text S blocks headers c) with
      | none => rw [hrec] at h; cases h
      | some cs' =>
        rw [hrec] at h
        cases h
        have hge := chunkLoopEnd_ge text S blocks headers c hc
        rw [joinChunks, List.flatten_cons, ← joinChunks, ih _ _ hrec]
        exact jsSubstring_append_drop text c _ hge (by omega)
    · rw [if_neg hc] at h
      cases h
      rw [joinChunks, List.flatten_nil]
      symm
      exact List.drop_eq_nil_of_le (by omega)

/-- On a text with no code blocks, every chunk the loop emits has
length at most `chunkSize + 2`. -/
theorem chunkLoop_size (text : Str) (S : Nat) (headers : List Nat) :
    ∀ (fuel c : Nat) (cs : List Str),
      chunkLoop text S [] headers fuel c = some cs →
      ∀ x ∈ cs, x.length ≤ S + 2 := by
  intro fuel
  induction fuel with
  | zero => intro c cs h; cases h
  | succ fuel ih =>
    intro c cs h
    rw [chunkLoop] at h
    by_cases hc : c < text.length
    · rw [if_pos hc] at h
      cases hrec : chunkLoop text S [] headers fuel
          (chunkLoopEnd text S [] headers c) with
      | none => rw [hrec] at h; cases h
      | some cs' =>
        rw [hrec] at h
        cases h
        intro x hx
        rcases List.mem_cons.mp hx with hx | hx
        · subst hx
          have hle := chunkLoopEnd_le text S headers c
          have hge := chunkLoopEnd_ge text S [] headers c hc
          have := jsSubstring_length_le text c (chunkLoopEnd text S [] headers c) hge
          omega
        · exact ih _ _ hrec x hx
    · rw [if_neg hc] at h
      cases h
      intro x hx
      cases hx

/-! ## The merge pass -/

/-- `mergeGo` keeps the output non-empty once anything was emitted or
remains to be emitted. -/
theorem mergeGo_ne_nil (M : Nat) :
    ∀ (l merged : List Str) (i : Nat), merged ≠ [] ∨ l ≠ [] →
      mergeGo M l merged i ≠ [] := by
  intro l
  induction l with
  | nil =>
    intro merged i h
    rw [mergeGo]
    rcases h with h | h
    · exact h
    · exact absurd rfl h
  | cons cur rest ih =>
    intro merged i h
    rw [mergeGo]
    split
    · split
      · split
        · exact ih _ _ (Or.inl (by simp))
        · exact ih _ _ (Or.inl (by simp))
      · exact ih _ _ (Or.inl (by simp))
    · exact ih _ _ (Or.inl (by simp))

/-- The merge pass preserves the bound `maxChunkSize + 2` on chunk
lengths: a merged chunk is `previous ++ "\n\n" ++ current` with
`previous.length + current.length ≤ maxChunkSize`. -/
theorem mergeGo_size (M : Nat) :
    ∀ (l merged : List Str) (i : Nat),
      (∀ x ∈ merged, x.length ≤ M + 2) →
      (∀ x ∈ l, x.length ≤ M + 2) →
      ∀ y ∈ mergeGo M l merged i, y.length ≤ M + 2 := by
  intro l
  induction l with
  | nil =>
    intro merged i hm _ y hy
    rw [mergeGo] at hy
    exact hm y hy
  | cons cur rest ih =>
    intro merged i hm hl y hy
    rw [mergeGo] at hy
    have hcur : cur.length ≤ M + 2 := hl cur (List.mem_cons_self cur rest)
    have hrest : ∀ x ∈ rest, x.length ≤ M + 2 :=
      fun x hx => hl x (List.mem_cons_of_mem cur hx)
    have hpush : ∀ x ∈ merged ++ [cur], x.length ≤ M + 2 := by
      intro x hx
      rcases List.mem_append.mp hx with hx | hx
      · exact hm x hx
      · rw [List.mem_singleton] at hx; subst hx; exact hcur
    split at hy
    · -- small chunk, not the first
      rcases hlast : merged.getLast? with _ | prev
      · rw [hlast] at hy
        exact ih _ _ hpush hrest y hy
      · rw [hlast] at hy
        dsimp only at hy
        by_cases hfits : prev.length + cur.length ≤ M
        · rw [if_pos hfits] at hy
          refine ih _ _ ?_ hrest y hy
          intro x hx
          rcases List.mem_append.mp hx with hx | hx
          · exact hm x (List.dropLast_sublist merged |>.subset hx)
          · rw [List.mem_singleton] at hx
            subst hx
            simp only [List.length_append, List.length_cons, List.length_nil]
            omega
        · rw [if_neg hfits] at hy
          exact ih _ _ hpush hrest y hy
    · exact ih _ _ hpush hrest y hy

/-! ## The retry loop on an always-failing unit of work -/

theorem processChunkGo_always_fail (call : Nat → CallOutcome) (m : Nat)
    (hfail : ∀ i, call i = .failure) :
    ∀ (fuel rc : Nat), rc < m → m - rc ≤ fuel →
      processChunkGo call m rc fuel =
        (m - rc, expWaits (rc + 1) (m - rc - 1), false) := by
  intro fuel
  induction fuel with
  | zero => intro rc h1 h2; omega
  | succ fuel ih =>
    intro rc h1 h2
    rw [processChunkGo, if_pos h1, hfail rc]
    by_cases hlast : m ≤ rc + 1
    · rw [if_pos hlast]
      have hm : m - rc = 1 := by omega
      rw [hm]
      simp [expWaits]
    · rw [if_neg hlast]
      dsimp only
      rw [ih (rc + 1) (by omega) (by omega)]
      dsimp only
      have h3 : m - (rc + 1) + 1 = m - rc := by omega
      have h4 : m - rc - 1 = (m - (rc + 1) - 1) + 1 := by omega
      rw [h3, h4, expWaits]

/-! ## Rate limiter: pruning and the split property -/

theorem prune_length_le (now : Nat) (ts : List Nat) :
    (prune now ts).length ≤ ts.length :=
  List.length_filter_le _ ts

theorem prune_prune (t T : Nat) (hTt : T ≤ t) (l : List Nat) :
    prune t (prune T l) = prune t l := by
  rw [prune, prune, prune, List.filter_filter]
  apply List.filter_congr
  intro x _
  by_cases h : t - x < 60000
  · have h2 : T - x < 60000 := by omega
    simp [h, h2]
  · simp [h]

theorem prune_append_now (t : Nat) (l : List Nat) :
    prune t (l ++ [t]) = prune t l ++ [t] := by
  rw [prune, prune, List.filter_append]
  congr 1
  simp

theorem SplitProp.append (m t : Nat) (l : List Nat)
    (hsp : SplitProp m l) (hgrant : (prune t l).length < m) :
    SplitProp m (l ++ [t]) := by
  intro k hk
  rw [List.length_append, List.length_singleton] at hk
  by_cases hkl : k < l.length
  · have hget : (l ++ [t]).get ⟨k, by rw [List.length_append]; omega⟩ = l.get ⟨k, hkl⟩ := by
      exact List.get_append k hkl
    have htake : (l ++ [t]).take k = l.take k :=
      List.take_append_of_le_length (by omega)
    simp only [hget, htake]
    exact hsp k hkl
  · have hkeq : k = l.length := by omega
    subst hkeq
    have hget : (l ++ [t]).get
        ⟨l.length, by rw [List.length_append, List.length_singleton]; omega⟩ = t := by
      simp
    have htake : (l ++ [t]).take l.length = l := List.take_left l [t]
    simp only [hget, htake]
    exact hgrant

theorem SplitProp.of_append (m t : Nat) (l : List Nat)
    (hsp : SplitProp m (l ++ [t])) : SplitProp m l := by
  intro k hk
  have hk' : k < (l ++ [t]).length := by rw [List.length_append]; omega
  have hget : (l ++ [t]).get ⟨k, hk'⟩ = l.get ⟨k, hk⟩ := List.get_append k hk
  have htake : (l ++ [t]).take k = l.take k :=
    List.take_append_of_le_length (by omega)
  have := hsp k hk'
  rw [hget, htake] at this
  exact this

/-- Sorted grant times with the split property admit at most `m` grants
in any sliding 60-second window. -/
theorem window_bound_of_splitProp (m : Nat) :
    ∀ (l : List Nat), l.Pairwise (· ≤ ·) → SplitProp m l →
      ∀ a, l.countP (inWindow a) ≤ m := by
  intro l
  induction l using List.reverseRecOn with
  | nil => intro _ _ a; simp
  | append_singleton l t ih =>
    intro hsorted hsp a
    have hsorted' : l.Pairwise (· ≤ ·) :=
      (List.pairwise_append.mp hsorted).1
    have hle : ∀ g ∈ l, g ≤ t := by
      intro g hg
      exact (List.pairwise_append.mp hsorted).2.2 g hg t (List.mem_singleton_self t)
    have hsp' : SplitProp m l := SplitProp.of_append m t l hsp
    rw [List.countP_append]
    by_cases hw : inWindow a t = true
    · have hlast : (prune t l).length < m := by
        have hk : l.length < (l ++ [t]).length := by
          rw [List.length_append, List.length_singleton]; omega
        have := hsp l.length hk
        have hget : (l ++ [t]).get ⟨l.length, hk⟩ = t := by simp
        have htake : (l ++ [t]).take l.length = l := List.take_left l [t]
        rw [hget, htake] at this
        exact this
      have hmono : l.countP (inWindow a) ≤ (prune t l).length := by
        rw [prune, ← List.countP_eq_length_filter]
        apply List.countP_mono_left
        intro g hg hwin
        rw [inWindow, Bool.and_eq_true, decide_eq_true_eq, decide_eq_true_eq] at hwin
        rw [inWindow, Bool.and_eq_true, decide_eq_true_eq, decide_eq_true_eq] at hw
        have := hle g hg
        simp only [decide_eq_true_eq]
        omega
      have hone : List.countP (inWindow a) [t] = 1 := by
        simp [hw]
      rw [hone]
      omega
    · have hzero : List.countP (inWindow a) [t] = 0 := by
        simp [hw]
      rw [hzero]
      have := ih hsorted' hsp' a
      omega

/-! ## Rate limiter: the run invariant -/

theorem rlStep_inv (m T : Nat) (s : RLState) (ev : RLEvent)
    (hinv : RLInv m T s) (hT : T ≤ evTime ev) :
    RLInv m (evTime ev) (rlStep s ev) := by
  obtain ⟨hmax, hle, hsorted, hts, hsp⟩ := hinv
  have hprune : prune (evTime ev) s.timestamps =
      prune (evTime ev) (s.granted.map Prod.snd) := by
    rw [hts, prune_prune _ _ hT]
  have hsnd : ∀ (id : Nat),
      ((s.granted ++ [(id, evTime ev)]).map Prod.snd) =
        s.granted.map Prod.snd ++ [evTime ev] := by
    intro id; rw [List.map_append]; rfl
  have hgle : ∀ a ∈ s.granted.map Prod.snd, a ≤ evTime ev := by
    intro a ha
    obtain ⟨g, hg, hga⟩ := List.mem_map.mp ha
    have := hle g hg
    omega
  have hgrant : ∀ (id : Nat), (prune (evTime ev) s.timestamps).length < m →
      RLInv m (evTime ev)
        { s with
          timestamps := prune (evTime ev) s.timestamps ++ [evTime ev]
          granted := s.granted ++ [(id, evTime ev)] } := by
    intro id hguard
    refine ⟨hmax, ?_, ?_, ?_, ?_⟩
    · intro g hg
      rcases List.mem_append.mp hg with hg | hg
      · have := hle g hg; omega
      · rw [List.mem_singleton] at hg; subst hg; exact le_rfl
    · rw [hsnd]
      rw [List.pairwise_append]
      refine ⟨hsorted, List.pairwise_singleton _ _, ?_⟩
      intro a ha b hb
      rw [List.mem_singleton] at hb
      subst hb
      exact hgle a ha
    · rw [hsnd, hprune, prune_append_now]
    · rw [hsnd]
      refine SplitProp.append m _ _ hsp ?_
      rw [hprune] at hguard
      exact hguard
  have hkeep : ∀ (q : List Nat) (enq : List Nat),
      RLInv m (evTime ev)
        { s with
          timestamps := prune (evTime ev) s.timestamps
          waitingQueue := q
          enqueued := enq } := by
    intro q enq
    refine ⟨hmax, ?_, hsorted, ?_, hsp⟩
    · intro g hg; have := hle g hg; omega
    · rw [hprune]
  cases ev with
  | request id now =>
    rw [rlStep]
    split
    · next hguard =>
      exact hgrant id (by rw [hmax] at hguard; exact hguard)
    · exact hkeep _ _
  | tick now =>
    rw [rlStep]
    split
    · next hguard =>
      cases hq : s.waitingQueue with
      | cons id restQueue =>
        have := hgrant id (by rw [hmax] at hguard; exact hguard)
        exact ⟨this.1, this.2.1, this.2.2.1, this.2.2.2.1, this.2.2.2.2⟩
      | nil =>
        dsimp only
        refine ⟨hmax, ?_, hsorted, ?_, hsp⟩
        · intro g hg; have := hle g hg; omega
        · exact hprune
    · refine ⟨hmax, ?_, hsorted, ?_, hsp⟩
      · intro g hg; have := hle g hg; omega
      · exact hprune

theorem runRL_inv (m : Nat) :
    ∀ (evs : List RLEvent) (s : RLState) (T : Nat),
      RLInv m T s → List.Chain' (· ≤ ·) (T :: evs.map evTime) →
      ∃ T', RLInv m T' (evs.foldl rlStep s) := by
  intro evs
  induction evs with
  | nil => intro s T hinv _; exact ⟨T, hinv⟩
  | cons ev rest ih =>
    intro s T hinv hchain
    rw [List.map_cons, List.chain'_cons] at hchain
    rw [List.foldl_cons]
    exact ih (rlStep s ev) (evTime ev) (rlStep_inv m T s ev hinv hchain.1) hchain.2

theorem rlStep_timestamps_le (m : Nat) (s : RLState) (ev : RLEvent)
    (hmax : s.maxPerMinute = m) (hlen : s.timestamps.length ≤ m) :
    (rlStep s ev).maxPerMinute = m ∧ (rlStep s ev).timestamps.length ≤ m := by
  cases ev with
  | request id now =>
    rw [rlStep]
    have hp := prune_length_le now s.timestamps
    split
    · next hguard =>
      refine ⟨hmax, ?_⟩
      dsimp only
      rw [List.length_append, List.length_singleton]
      omega
    · refine ⟨hmax, ?_⟩
      dsimp only
      omega
  | tick now =>
    rw [rlStep]
    have hp := prune_length_le now s.timestamps
    split
    · next hguard =>
      cases s.waitingQueue with
      | cons id restQueue =>
        refine ⟨hmax, ?_⟩
        dsimp only
        rw [List.length_append, List.length_singleton]
        omega
      | nil =>
        refine ⟨hmax, ?_⟩
        dsimp only
        omega
    · refine ⟨hmax, ?_⟩
      dsimp only
      omega

theorem runRL_timestamps_le (m : Nat) :
    ∀ (evs : List RLEvent) (s : RLState),
      s.maxPerMinute = m → s.timestamps.length ≤ m →
      (evs.foldl rlStep s).timestamps.length ≤ m := by
  intro evs
  induction evs with
  | nil => intro s _ h; exact h
  | cons ev rest ih =>
    intro s hmax hlen
    rw [List.foldl_cons]
    have := rlStep_timestamps_le m s ev hmax hlen
    exact ih _ this.1 this.2

/-! ## Rate limiter: the waiting queue is first-in first-out -/

theorem rlStep_fifo (s : RLState) (ev : RLEvent)
    (h : s.servedFromQueue ++ s.waitingQueue = s.enqueued) :
    (rlStep s ev).servedFromQueue ++ (rlStep s ev).waitingQueue = (rlStep s ev).enqueued := by
  cases ev with
  | request id now =>
    rw [rlStep]
    split
    · exact h
    · simp only
      rw [← List.append_assoc, h]
  | tick now =>
    rw [rlStep]
    split
    · cases hq : s.waitingQueue with
      | cons id restQueue =>
        simp only
        rw [List.append_assoc, List.singleton_append, ← hq, h]
      | nil =>
        dsimp only
        rw [hq] at h
        exact h
    · exact h

theorem runRL_fifo_aux :
    ∀ (evs : List RLEvent) (s : RLState),
      s.servedFromQueue ++ s.waitingQueue = s.enqueued →
      (evs.foldl rlStep s).servedFromQueue ++ (evs.foldl rlStep s).waitingQueue =
        (evs.foldl rlStep s).enqueued := by
  intro evs
  induction evs with
  | nil => intro s h; exact h
  | cons ev rest ih =>
    intro s h
    rw [List.foldl_cons]
    exact ih _ (rlStep_fifo s ev h)

/-! ## The C1 counterexample text, computed symbolically

The 50200-character `c1Text` is too large for kernel evaluation, so
every intermediate result of `chunkTextJS?` on it — the header list,
the code-block list, the five loop iterations and the merge pass — is
established by rewriting with the structural facts below. -/

theorem head?_replicate_append (c : Char) (n : Nat) (X : Str) (hn : 0 < n) :
    (List.replicate n c ++ X).head? = some c := by
  obtain ⟨m, rfl⟩ : ∃ m, n = m + 1 := ⟨n - 1, by omega⟩
  rw [List.replicate_succ]
  rfl

theorem charAt_of_drop_replicate (s : Str) (a n : Nat) (c : Char) (X : Str)
    (hdrop : s.drop a = List.replicate n c ++ X) (q : Nat) (ha : a ≤ q) (hq : q < a + n) :
    charAt s q = some c := by
  have h1 : s.drop q = (s.drop a).drop (q - a) := by
    rw [List.drop_drop]
    congr 1
    omega
  rw [charAt, h1, hdrop,
    List.drop_append_of_le_length (by rw [List.length_replicate]; omega),
    List.drop_replicate]
  exact head?_replicate_append c (n - (q - a)) X (by omega)

theorem drop_eq_nil_of_drop_eq_nil (s : Str) (a q : Nat) (ha : s.drop a = []) (haq : a ≤ q) :
    s.drop q = [] := by
  have : s.drop q = (s.drop a).drop (q - a) := by rw [List.drop_drop]; congr 1; omega
  rw [this, ha, List.drop_nil]

theorem takeWhile_replicate_append_go (P : Char → Bool) (c : Char) (n : Nat) (X : Str)
    (hc : P c = true) :
    (List.replicate n c ++ X).takeWhile P = List.replicate n c ++ X.takeWhile P := by
  induction n with
  | zero => simp
  | succ k ih => simp [List.replicate_succ, List.takeWhile_cons, hc, ih]

theorem takeWhile_replicate_append_stop (P : Char → Bool) (c d : Char) (n : Nat) (rest : Str)
    (hc : P c = true) (hd : P d = false) :
    (List.replicate n c ++ (d :: rest)).takeWhile P = List.replicate n c := by
  rw [takeWhile_replicate_append_go P c n _ hc, List.takeWhile_cons, hd]
  simp

theorem takeWhile_replicate_append_none (P : Char → Bool) (c : Char) (n : Nat) (X : Str)
    (hc : P c = false) (hn : 0 < n) :
    (List.replicate n c ++ X).takeWhile P = [] := by
  obtain ⟨m, rfl⟩ : ∃ m, n = m + 1 := ⟨n - 1, by omega⟩
  rw [List.replicate_succ, List.cons_append, List.takeWhile_cons, hc]
  simp

theorem ticks_prefix_head (s : Str) (q : Nat) (h : charAt s q ≠ some '`') :
    ticks.isPrefixOf (s.drop q) = false := by
  cases hd : s.drop q with
  | nil => rfl
  | cons c rest =>
    have hc : charAt s q = some c := by rw [charAt, hd]; rfl
    have hcc : ¬ ('`' : Char) = c := by
      intro h'
      exact h (by rw [hc, ← h'])
    simp [ticks, List.isPrefixOf, hcc]

theorem isPrefixOf_self_append (l t : Str) : l.isPrefixOf (l ++ t) = true := by
  rw [List.isPrefixOf_iff_prefix]
  exact List.prefix_append l t


theorem firstIndexFromAux_not (needle s : Str) (start : Nat) :
    ∀ (l : Str) (i : Nat), l = s.drop i →
      (∀ q, i ≤ q → start ≤ q → needle.isPrefixOf (s.drop q) = false) →
      firstIndexFromAux needle start l i = none := by
  intro l
  induction l with
  | nil => intro i _ _; rfl
  | cons c rest ih =>
    intro i hl hall
    have htl : rest = s.drop (i + 1) := by
      rw [← List.tail_drop, ← hl]
      rfl
    rw [firstIndexFromAux, if_neg ?hcond]
    case hcond =>
      rintro ⟨h1, h2⟩
      rw [hl] at h2
      have := hall i le_rfl h1
      rw [this] at h2
      simp at h2
    exact ih (i + 1) htl (fun q hq hsq => hall q (by omega) hsq)

theorem firstIndexFromAux_found (needle s : Str) (start p : Nat)
    (hne : needle ≠ [])
    (hp : needle.isPrefixOf (s.drop p) = true) (hsp : start ≤ p) :
    ∀ (l : Str) (i : Nat), l = s.drop i → i ≤ p →
      (∀ q, i ≤ q → start ≤ q → q < p → needle.isPrefixOf (s.drop q) = false) →
      firstIndexFromAux needle start l i = some p := by
  intro l
  induction l with
  | nil =>
    intro i hl hip _
    exfalso
    have hdp : s.drop p = [] := by
      have : s.drop p = (s.drop i).drop (p - i) := by
        rw [List.drop_drop]; congr 1; omega
      rw [this, ← hl, List.drop_nil]
    rw [hdp] at hp
    obtain ⟨x, xs, rfl⟩ : ∃ x xs, needle = x :: xs := by
      cases needle with
      | nil => exact absurd rfl hne
      | cons x xs => exact ⟨x, xs, rfl⟩
    simp [List.isPrefixOf] at hp
  | cons c rest ih =>
    intro i hl hip hgap
    have htl : rest = s.drop (i + 1) := by
      rw [← List.tail_drop, ← hl]
      rfl
    by_cases hi : i = p
    · subst hi
      rw [firstIndexFromAux, if_pos ⟨hsp, by rw [hl]; exact hp⟩]
    · have hip' : i < p := by omega
      rw [firstIndexFromAux, if_neg ?hcond]
      case hcond =>
        rintro ⟨h1, h2⟩
        rw [hl] at h2
        have := hgap i le_rfl h1 hip'
        rw [this] at h2
        simp at h2
      exact ih (i + 1) htl (by omega) (fun q hq hsq hqp => hgap q (by omega) hsq hqp)

/-! ## c1Text anatomy -/

theorem ticks_length : ticks.length = 3 := rfl

theorem c1Tail4_length : c1Tail4.length = 48437 := by
  rw [c1Tail4, List.length_append, List.length_append, List.length_append,
    List.length_replicate, List.length_replicate, ticks_length]

theorem c1Tail3_length : c1Tail3.length = 48738 := by
  rw [c1Tail3, List.length_append, List.length_append, List.length_replicate,
    List.length_cons, List.length_cons, List.length_cons, List.length_nil, c1Tail4_length]

theorem c1Tail2_length : c1Tail2.length = 49117 := by
  rw [c1Tail2, List.length_append, List.length_append, List.length_replicate,
    List.length_cons, List.length_cons, List.length_cons, List.length_nil, c1Tail3_length]

theorem c1Tail1_length : c1Tail1.length = 49418 := by
  rw [c1Tail1, List.length_append, List.length_append, List.length_replicate,
    List.length_cons, List.length_cons, List.length_cons, List.length_nil, c1Tail2_length]

theorem c1Text_length : c1Text.length = 50200 := by
  rw [c1Text, List.length_append, List.length_append, List.length_replicate,
    List.length_cons, List.length_cons, List.length_cons, List.length_nil, c1Tail1_length]

theorem c1drop_779 : c1Text.drop 779 = ['\n', '#', ' '] ++ c1Tail1 := by
  rw [c1Text]
  exact List.drop_left' (by rw [List.length_replicate])

theorem c1drop_780 : c1Text.drop 780 = '#' :: ' ' :: c1Tail1 := by
  rw [show (780 : Nat) = 779 + 1 from rfl, ← List.drop_drop, c1drop_779]
  rfl

theorem c1drop_782 : c1Text.drop 782 = c1Tail1 := by
  rw [show (782 : Nat) = 779 + 3 from rfl, ← List.drop_drop, c1drop_779]
  rfl

theorem c1drop_1080 : c1Text.drop 1080 = ['\n', '#', ' '] ++ c1Tail2 := by
  rw [show (1080 : Nat) = 782 + 298 from rfl, ← List.drop_drop, c1drop_782, c1Tail1]
  exact List.drop_left' (by rw [List.length_replicate])

theorem c1drop_1081 : c1Text.drop 1081 = '#' :: ' ' :: c1Tail2 := by
  rw [show (1081 : Nat) = 1080 + 1 from rfl, ← List.drop_drop, c1drop_1080]
  rfl

theorem c1drop_1083 : c1Text.drop 1083 = c1Tail2 := by
  rw [show (1083 : Nat) = 1080 + 3 from rfl, ← List.drop_drop, c1drop_1080]
  rfl

theorem c1drop_1459 : c1Text.drop 1459 = ['\n', '#', ' '] ++ c1Tail3 := by
  rw [show (1459 : Nat) = 1083 + 376 from rfl, ← List.drop_drop, c1drop_1083, c1Tail2]
  exact List.drop_left' (by rw [List.length_replicate])

theorem c1drop_1460 : c1Text.drop 1460 = '#' :: ' ' :: c1Tail3 := by
  rw [show (1460 : Nat) = 1459 + 1 from rfl, ← List.drop_drop, c1drop_1459]
  rfl

theorem c1drop_1462 : c1Text.drop 1462 = c1Tail3 := by
  rw [show (1462 : Nat) = 1459 + 3 from rfl, ← List.drop_drop, c1drop_1459]
  rfl

theorem c1drop_1760 : c1Text.drop 1760 = ['\n', '#', ' '] ++ c1Tail4 := by
  rw [show (1760 : Nat) = 1462 + 298 from rfl, ← List.drop_drop, c1drop_1462, c1Tail3]
  exact List.drop_left' (by rw [List.length_replicate])

theorem c1drop_1761 : c1Text.drop 1761 = '#' :: ' ' :: c1Tail4 := by
  rw [show (1761 : Nat) = 1760 + 1 from rfl, ← List.drop_drop, c1drop_1760]
  rfl

theorem c1drop_1763 : c1Text.drop 1763 = c1Tail4 := by
  rw [show (1763 : Nat) = 1760 + 3 from rfl, ← List.drop_drop, c1drop_1760]
  rfl

theorem c1drop_2500 : c1Text.drop 2500 = ticks ++ (List.replicate 47694 'z' ++ ticks) := by
  rw [show (2500 : Nat) = 1763 + 737 from rfl, ← List.drop_drop, c1drop_1763, c1Tail4]
  exact List.drop_left' (by rw [List.length_replicate])

theorem c1drop_2503 : c1Text.drop 2503 = List.replicate 47694 'z' ++ ticks := by
  rw [show (2503 : Nat) = 2500 + 3 from rfl, ← List.drop_drop, c1drop_2500]
  rfl

theorem c1drop_50197 : c1Text.drop 50197 = ticks := by
  rw [show (50197 : Nat) = 2503 + 47694 from rfl, ← List.drop_drop, c1drop_2503]
  exact List.drop_left' (by rw [List.length_replicate])

theorem c1drop_50200 : c1Text.drop 50200 = [] := by
  rw [show (50200 : Nat) = 50197 + 3 from rfl, ← List.drop_drop, c1drop_50197]
  rfl

/-! ## charAt facts for c1Text -/

theorem c1at_a (q : Nat) (hq : q < 779) : charAt c1Text q = some 'a' := by
  refine charAt_of_drop_replicate c1Text 0 779 'a' (['\n', '#', ' '] ++ c1Tail1) ?_ q (by omega) (by omega)
  rw [List.drop_zero, c1Text]

theorem c1at_b (q : Nat) (h1 : 782 ≤ q) (h2 : q < 1080) : charAt c1Text q = some 'b' := by
  refine charAt_of_drop_replicate c1Text 782 298 'b' (['\n', '#', ' '] ++ c1Tail2) ?_ q h1 (by omega)
  rw [c1drop_782, c1Tail1]

theorem c1at_c (q : Nat) (h1 : 1083 ≤ q) (h2 : q < 1459) : charAt c1Text q = some 'c' := by
  refine charAt_of_drop_replicate c1Text 1083 376 'c' (['\n', '#', ' '] ++ c1Tail3) ?_ q h1 (by omega)
  rw [c1drop_1083, c1Tail2]

theorem c1at_d (q : Nat) (h1 : 1462 ≤ q) (h2 : q < 1760) : charAt c1Text q = some 'd' := by
  refine charAt_of_drop_replicate c1Text 1462 298 'd' (['\n', '#', ' '] ++ c1Tail4) ?_ q h1 (by omega)
  rw [c1drop_1462, c1Tail3]

theorem c1at_e (q : Nat) (h1 : 1763 ≤ q) (h2 : q < 2500) : charAt c1Text q = some 'e' := by
  refine charAt_of_drop_replicate c1Text 1763 737 'e' (ticks ++ (List.replicate 47694 'z' ++ ticks)) ?_ q h1 (by omega)
  rw [c1drop_1763, c1Tail4]

theorem c1at_z (q : Nat) (h1 : 2503 ≤ q) (h2 : q < 50197) : charAt c1Text q = some 'z' := by
  exact charAt_of_drop_replicate c1Text 2503 47694 'z' ticks c1drop_2503 q h1 (by omega)

theorem c1at_779 : charAt c1Text 779 = some '\n' := by rw [charAt, c1drop_779]; rfl

theorem c1at_780 : charAt c1Text 780 = some '#' := by rw [charAt, c1drop_780]; rfl

theorem c1at_781 : charAt c1Text 781 = some ' ' := by
  rw [charAt, show (781 : Nat) = 779 + 2 from rfl, ← List.drop_drop, c1drop_779]
  rfl

theorem c1at_1080 : charAt c1Text 1080 = some '\n' := by rw [charAt, c1drop_1080]; rfl

theorem c1at_1081 : charAt c1Text 1081 = some '#' := by rw [charAt, c1drop_1081]; rfl

theorem c1at_1082 : charAt c1Text 1082 = some ' ' := by
  rw [charAt, show (1082 : Nat) = 1080 + 2 from rfl, ← List.drop_drop, c1drop_1080]
  rfl

theorem c1at_1459 : charAt c1Text 1459 = some '\n' := by rw [charAt, c1drop_1459]; rfl

theorem c1at_1460 : charAt c1Text 1460 = some '#' := by rw [charAt, c1drop_1460]; rfl

theorem c1at_1461 : charAt c1Text 1461 = some ' ' := by
  rw [charAt, show (1461 : Nat) = 1459 + 2 from rfl, ← List.drop_drop, c1drop_1459]
  rfl

theorem c1at_1760 : charAt c1Text 1760 = some '\n' := by rw [charAt, c1drop_1760]; rfl

theorem c1at_1761 : charAt c1Text 1761 = some '#' := by rw [charAt, c1drop_1761]; rfl

theorem c1at_1762 : charAt c1Text 1762 = some ' ' := by
  rw [charAt, show (1762 : Nat) = 1760 + 2 from rfl, ← List.drop_drop, c1drop_1760]
  rfl


theorem c1at_tick1 (q : Nat) (h1 : 2500 ≤ q) (h2 : q < 2503) : charAt c1Text q = some '`' := by
  have hdq : (c1Text.drop 2500).drop (q - 2500) = c1Text.drop q := by
    rw [List.drop_drop, Nat.add_sub_cancel' h1]
  rw [charAt, ← hdq, c1drop_2500]
  rcases (by omega : q - 2500 = 0 ∨ q - 2500 = 1 ∨ q - 2500 = 2) with h3 | h3 | h3 <;>
    rw [h3] <;> rfl

theorem c1at_tick2 (q : Nat) (h1 : 50197 ≤ q) (h2 : q < 50200) : charAt c1Text q = some '`' := by
  have hdq : (c1Text.drop 50197).drop (q - 50197) = c1Text.drop q := by
    rw [List.drop_drop, Nat.add_sub_cancel' h1]
  rw [charAt, ← hdq, c1drop_50197]
  rcases (by omega : q - 50197 = 0 ∨ q - 50197 = 1 ∨ q - 50197 = 2) with h3 | h3 | h3 <;>
    rw [h3] <;> rfl


theorem c1at_none (q : Nat) (hq : 50200 ≤ q) : charAt c1Text q = none := by
  rw [charAt, drop_eq_nil_of_drop_eq_nil c1Text 50200 q c1drop_50200 hq]
  rfl

/-! ## line starts -/

theorem isLineStart_false_of (s : Str) (q : Nat) (hq : q ≠ 0) (c : Char)
    (hc : charAt s (q - 1) = some c) (hnl : isJsNewline c = false) :
    isLineStart s q = false := by
  unfold isLineStart
  rw [hc]
  simp [hq, hnl]

theorem isLineStart_true_of (s : Str) (q : Nat) (c : Char)
    (hc : charAt s (q - 1) = some c) (hnl : isJsNewline c = true) :
    isLineStart s q = true := by
  unfold isLineStart
  rw [hc]
  simp [hnl]

/-! ## headerMatchEnd computations -/

theorem headerMatchEnd_hash_space (s : Str) (i : Nat) (T : Str)
    (hdrop : s.drop i = '#' :: ' ' :: T)
    (hdrop2 : s.drop (i + 1 + 1) = T)
    (hsp : T.takeWhile isJsSpace = [])
    (c : Char) (hc : T.head? = some c) (hcnl : isJsNewline c = false) :
    headerMatchEnd s i =
      some (i + 1 + 1 + (T.takeWhile (fun x => ¬ isJsNewline x)).length) := by
  have htw : List.takeWhile (fun c => decide (c = '#')) ('#' :: ' ' :: T) = ['#'] := by
    rw [List.takeWhile_cons, if_pos (by decide), List.takeWhile_cons, if_neg (by decide)]
  have htw2 : List.takeWhile isJsSpace (' ' :: T) = [' '] := by
    rw [List.takeWhile_cons, if_pos (by decide), hsp]
  have hhs : headerSplit (' ' :: T) 1 = some 1 := by
    have hAt1 : charAt (' ' :: T) 1 = some c := by
      rw [charAt]
      simpa using hc
    rw [show (1 : Nat) = 0 + 1 from rfl, headerSplit, hAt1]
    simp [hcnl]
  simp only [headerMatchEnd, hdrop]
  rw [htw]
  rw [if_neg (by norm_num)]
  rw [show List.drop (['#'] : Str).length ('#' :: ' ' :: T) = ' ' :: T from rfl]
  rw [htw2]
  rw [if_neg (by norm_num)]
  rw [show ([' '] : Str).length = 1 from rfl, hhs]
  have hk : i + (['#'] : Str).length + 1 = i + 1 + 1 := by norm_num
  simp only [hk, hdrop2]

theorem c1Tail1_spaces : c1Tail1.takeWhile isJsSpace = [] := by
  rw [c1Tail1]
  exact takeWhile_replicate_append_none _ _ _ _ (by decide) (by norm_num)

theorem c1Tail2_spaces : c1Tail2.takeWhile isJsSpace = [] := by
  rw [c1Tail2]
  exact takeWhile_replicate_append_none _ _ _ _ (by decide) (by norm_num)

theorem c1Tail3_spaces : c1Tail3.takeWhile isJsSpace = [] := by
  rw [c1Tail3]
  exact takeWhile_replicate_append_none _ _ _ _ (by decide) (by norm_num)

theorem c1Tail4_spaces : c1Tail4.takeWhile isJsSpace = [] := by
  rw [c1Tail4]
  exact takeWhile_replicate_append_none _ _ _ _ (by decide) (by norm_num)

theorem c1Tail1_head : c1Tail1.head? = some 'b' := by
  rw [c1Tail1]
  exact head?_replicate_append _ _ _ (by norm_num)

theorem c1Tail2_head : c1Tail2.head? = some 'c' := by
  rw [c1Tail2]
  exact head?_replicate_append _ _ _ (by norm_num)

theorem c1Tail3_head : c1Tail3.head? = some 'd' := by
  rw [c1Tail3]
  exact head?_replicate_append _ _ _ (by norm_num)

theorem c1Tail4_head : c1Tail4.head? = some 'e' := by
  rw [c1Tail4]
  exact head?_replicate_append _ _ _ (by norm_num)

theorem c1Tail1_run :
    c1Tail1.takeWhile (fun x => ¬ isJsNewline x) = List.replicate 298 'b' := by
  rw [c1Tail1]
  exact takeWhile_replicate_append_stop _ _ _ _ _ (by decide) (by decide)

theorem c1Tail2_run :
    c1Tail2.takeWhile (fun x => ¬ isJsNewline x) = List.replicate 376 'c' := by
  rw [c1Tail2]
  exact takeWhile_replicate_append_stop _ _ _ _ _ (by decide) (by decide)

theorem c1Tail3_run :
    c1Tail3.takeWhile (fun x => ¬ isJsNewline x) = List.replicate 298 'd' := by
  rw [c1Tail3]
  exact takeWhile_replicate_append_stop _ _ _ _ _ (by decide) (by decide)

theorem c1Tail4_run_length :
    (c1Tail4.takeWhile (fun x => ¬ isJsNewline x)).length = 48437 := by
  rw [c1Tail4, takeWhile_replicate_append_go _ _ _ _ (by decide)]
  rw [show (ticks ++ (List.replicate 47694 'z' ++ ticks) : Str) =
      '`' :: '`' :: '`' :: (List.replicate 47694 'z' ++ ticks) from rfl]
  rw [List.takeWhile_cons, if_pos (by decide), List.takeWhile_cons, if_pos (by decide),
    List.takeWhile_cons, if_pos (by decide),
    takeWhile_replicate_append_go _ _ _ _ (by decide)]
  rw [show (ticks : Str) = '`' :: '`' :: '`' :: [] from rfl]
  rw [List.takeWhile_cons, if_pos (by decide), List.takeWhile_cons, if_pos (by decide),
    List.takeWhile_cons, if_pos (by decide), List.takeWhile_nil]
  rw [List.length_append, List.length_replicate, List.length_cons, List.length_cons,
    List.length_cons, List.length_append, List.length_replicate, List.length_cons,
    List.length_cons, List.length_cons, List.length_nil]

theorem c1hm_780 : headerMatchEnd c1Text 780 = some 1080 := by
  rw [headerMatchEnd_hash_space c1Text 780 c1Tail1 c1drop_780
    (by rw [show (780 + 1 + 1 : Nat) = 782 from rfl, c1drop_782])
    c1Tail1_spaces 'b' c1Tail1_head (by decide)]
  rw [c1Tail1_run, List.length_replicate]

theorem c1hm_1081 : headerMatchEnd c1Text 1081 = some 1459 := by
  rw [headerMatchEnd_hash_space c1Text 1081 c1Tail2 c1drop_1081
    (by rw [show (1081 + 1 + 1 : Nat) = 1083 from rfl, c1drop_1083])
    c1Tail2_spaces 'c' c1Tail2_head (by decide)]
  rw [c1Tail2_run, List.length_replicate]

theorem c1hm_1460 : headerMatchEnd c1Text 1460 = some 1760 := by
  rw [headerMatchEnd_hash_space c1Text 1460 c1Tail3 c1drop_1460
    (by rw [show (1460 + 1 + 1 : Nat) = 1462 from rfl, c1drop_1462])
    c1Tail3_spaces 'd' c1Tail3_head (by decide)]
  rw [c1Tail3_run, List.length_replicate]

theorem c1hm_1761 : headerMatchEnd c1Text 1761 = some 50200 := by
  rw [headerMatchEnd_hash_space c1Text 1761 c1Tail4 c1drop_1761
    (by rw [show (1761 + 1 + 1 : Nat) = 1763 from rfl, c1drop_1763])
    c1Tail4_spaces 'e' c1Tail4_head (by decide)]
  rw [c1Tail4_run_length]

theorem c1hm_0 : headerMatchEnd c1Text 0 = none := by
  have h : List.takeWhile (fun c => decide (c = '#')) c1Text = [] := by
    rw [c1Text]
    exact takeWhile_replicate_append_none _ _ _ _ (by decide) (by norm_num)
  simp only [headerMatchEnd, List.drop_zero, h]
  rw [if_pos (show ([] : Str).length = 0 ∨ 6 < ([] : Str).length from Or.inl rfl)]

/-! ## findHeaderFromAux scans -/

theorem findHeaderFromAux_step_skip (s : Str) (fuel p : Nat) (hp : p < s.length)
    (h : isLineStart s p = false ∨ headerMatchEnd s p = none) :
    findHeaderFromAux s (fuel + 1) p = findHeaderFromAux s fuel (p + 1) := by
  rw [findHeaderFromAux, if_neg (Nat.not_le.mpr hp)]
  rcases h with h | h
  · rw [if_neg (by rw [h]; intro hc; exact Bool.false_ne_true hc)]
  · by_cases hls : isLineStart s p = true
    · rw [if_pos hls, h]
    · rw [if_neg hls]

theorem findHeaderFromAux_skip_range (s : Str) :
    ∀ (d fuel p : Nat),
      (∀ q, p ≤ q → q < p + d →
        q < s.length ∧ (isLineStart s q = false ∨ headerMatchEnd s q = none)) →
      findHeaderFromAux s (d + fuel) p = findHeaderFromAux s fuel (p + d) := by
  intro d
  induction d with
  | zero => intro fuel p _; rw [Nat.zero_add, Nat.add_zero]
  | succ k ih =>
    intro fuel p h
    have h0 := h p le_rfl (by omega)
    have hstep : k + 1 + fuel = (k + fuel) + 1 := by omega
    rw [hstep, findHeaderFromAux_step_skip s (k + fuel) p h0.1 h0.2,
      ih fuel (p + 1) (fun q hq hq2 => h q (by omega) (by omega))]
    have : p + 1 + k = p + (k + 1) := by omega
    rw [this]

theorem findHeaderFromAux_hit (s : Str) (fuel p e : Nat) (hfuel : 0 < fuel)
    (hp : p < s.length) (hls : isLineStart s p = true) (hm : headerMatchEnd s p = some e) :
    findHeaderFromAux s fuel p = some (p, e) := by
  obtain ⟨f, rfl⟩ : ∃ f, fuel = f + 1 := ⟨fuel - 1, by omega⟩
  rw [findHeaderFromAux, if_neg (Nat.not_le.mpr hp), if_pos hls, hm]

theorem findHeaderFromAux_stop (s : Str) (fuel p : Nat) (hp : s.length ≤ p) :
    findHeaderFromAux s fuel p = none := by
  cases fuel with
  | zero => rfl
  | succ f => rw [findHeaderFromAux, if_pos hp]

/-! ## the four header scans of c1Text -/

theorem c1_nohead_A (q : Nat) (h1 : 0 ≤ q) (h2 : q < 0 + 780) :
    q < c1Text.length ∧ (isLineStart c1Text q = false ∨ headerMatchEnd c1Text q = none) := by
  refine ⟨by rw [c1Text_length]; omega, ?_⟩
  by_cases h0 : q = 0
  · subst h0
    right
    exact c1hm_0
  · left
    exact isLineStart_false_of c1Text q h0 'a' (c1at_a (q - 1) (by omega)) (by decide)

theorem c1scan_1 : findHeaderFromAux c1Text 50201 0 = some (780, 1080) := by
  rw [show (50201 : Nat) = 780 + 49421 from rfl,
    findHeaderFromAux_skip_range c1Text 780 49421 0 (fun q hq hq2 => c1_nohead_A q hq hq2)]
  exact findHeaderFromAux_hit c1Text 49421 (0 + 780) 1080 (by norm_num)
    (by rw [c1Text_length]; norm_num)
    (isLineStart_true_of c1Text (0 + 780) '\n' (by norm_num [c1at_779]) (by decide))
    (by norm_num [c1hm_780])

theorem c1scan_2 : findHeaderFromAux c1Text 50201 1080 = some (1081, 1459) := by
  rw [show (50201 : Nat) = 1 + 50200 from rfl,
    findHeaderFromAux_skip_range c1Text 1 50200 1080 (fun q hq hq2 => by
      have hq' : q = 1080 := by omega
      subst hq'
      refine ⟨by rw [c1Text_length]; omega, Or.inl ?_⟩
      exact isLineStart_false_of c1Text 1080 (by omega) 'b'
        (by norm_num [c1at_b]) (by decide))]
  exact findHeaderFromAux_hit c1Text 50200 (1080 + 1) 1459 (by norm_num)
    (by rw [c1Text_length]; norm_num)
    (isLineStart_true_of c1Text (1080 + 1) '\n' (by norm_num [c1at_1080]) (by decide))
    (by norm_num [c1hm_1081])

theorem c1scan_3 : findHeaderFromAux c1Text 50201 1459 = some (1460, 1760) := by
  rw [show (50201 : Nat) = 1 + 50200 from rfl,
    findHeaderFromAux_skip_range c1Text 1 50200 1459 (fun q hq hq2 => by
      have hq' : q = 1459 := by omega
      subst hq'
      refine ⟨by rw [c1Text_length]; omega, Or.inl ?_⟩
      exact isLineStart_false_of c1Text 1459 (by omega) 'c'
        (by norm_num [c1at_c]) (by decide))]
  exact findHeaderFromAux_hit c1Text 50200 (1459 + 1) 1760 (by norm_num)
    (by rw [c1Text_length]; norm_num)
    (isLineStart_true_of c1Text (1459 + 1) '\n' (by norm_num [c1at_1459]) (by decide))
    (by norm_num [c1hm_1460])

theorem c1scan_4 : findHeaderFromAux c1Text 50201 1760 = some (1761, 50200) := by
  rw [show (50201 : Nat) = 1 + 50200 from rfl,
    findHeaderFromAux_skip_range c1Text 1 50200 1760 (fun q hq hq2 => by
      have hq' : q = 1760 := by omega
      subst hq'
      refine ⟨by rw [c1Text_length]; omega, Or.inl ?_⟩
      exact isLineStart_false_of c1Text 1760 (by omega) 'd'
        (by norm_num [c1at_d]) (by decide))]
  exact findHeaderFromAux_hit c1Text 50200 (1760 + 1) 50200 (by norm_num)
    (by rw [c1Text_length]; norm_num)
    (isLineStart_true_of c1Text (1760 + 1) '\n' (by norm_num [c1at_1760]) (by decide))
    (by norm_num [c1hm_1761])

theorem c1scan_5 : findHeaderFromAux c1Text 50201 50200 = none :=
  findHeaderFromAux_stop c1Text 50201 50200 (by rw [c1Text_length])

/-! ## findHeaders of c1Text -/

theorem findHeadersGo_cons (s : Str) (fuel li p e : Nat) (hf : 0 < fuel)
    (h : findHeaderFromAux s (s.length + 1) li = some (p, e)) :
    findHeadersGo s fuel li = p :: findHeadersGo s (fuel - 1) e := by
  obtain ⟨f, rfl⟩ : ∃ f, fuel = f + 1 := ⟨fuel - 1, by omega⟩
  rw [findHeadersGo, h]
  norm_num

theorem findHeadersGo_nil (s : Str) (fuel li : Nat) (hf : 0 < fuel)
    (h : findHeaderFromAux s (s.length + 1) li = none) :
    findHeadersGo s fuel li = [] := by
  obtain ⟨f, rfl⟩ : ∃ f, fuel = f + 1 := ⟨fuel - 1, by omega⟩
  rw [findHeadersGo, h]

theorem c1_findHeaders : findHeaders c1Text = [780, 1081, 1460, 1761] := by
  have hlen : c1Text.length + 1 = 50201 := by rw [c1Text_length]
  rw [findHeaders, hlen]
  rw [findHeadersGo_cons c1Text 50201 0 780 1080 (by norm_num) (by rw [hlen]; exact c1scan_1)]
  rw [findHeadersGo_cons c1Text (50201 - 1) 1080 1081 1459 (by norm_num)
    (by rw [hlen]; exact c1scan_2)]
  rw [findHeadersGo_cons c1Text (50201 - 1 - 1) 1459 1460 1760 (by norm_num)
    (by rw [hlen]; exact c1scan_3)]
  rw [findHeadersGo_cons c1Text (50201 - 1 - 1 - 1) 1760 1761 50200 (by norm_num)
    (by rw [hlen]; exact c1scan_4)]
  rw [findHeadersGo_nil c1Text (50201 - 1 - 1 - 1 - 1) 50200 (by norm_num)
    (by rw [hlen]; exact c1scan_5)]

/-! ## findCodeBlocks of c1Text -/

theorem c1_no_tick_lt_2500 (q : Nat) (hq : q < 2500) : charAt c1Text q ≠ some '`' := by
  by_cases h1 : q < 779
  · rw [c1at_a q h1]; simp
  · by_cases h2 : q = 779
    · subst h2; rw [c1at_779]; simp
    · by_cases h3 : q = 780
      · subst h3; rw [c1at_780]; simp
      · by_cases h4 : q = 781
        · subst h4; rw [c1at_781]; simp
        · by_cases h5 : q < 1080
          · rw [c1at_b q (by omega) h5]; simp
          · by_cases h6 : q = 1080
            · subst h6; rw [c1at_1080]; simp
            · by_cases h7 : q = 1081
              · subst h7; rw [c1at_1081]; simp
              · by_cases h8 : q = 1082
                · subst h8; rw [c1at_1082]; simp
                · by_cases h9 : q < 1459
                  · rw [c1at_c q (by omega) h9]; simp
                  · by_cases h10 : q = 1459
                    · subst h10; rw [c1at_1459]; simp
                    · by_cases h11 : q = 1460
                      · subst h11; rw [c1at_1460]; simp
                      · by_cases h12 : q = 1461
                        · subst h12; rw [c1at_1461]; simp
                        · by_cases h13 : q < 1760
                          · rw [c1at_d q (by omega) h13]; simp
                          · by_cases h14 : q = 1760
                            · subst h14; rw [c1at_1760]; simp
                            · by_cases h15 : q = 1761
                              · subst h15; rw [c1at_1761]; simp
                              · by_cases h16 : q = 1762
                                · subst h16; rw [c1at_1762]; simp
                                · rw [c1at_e q (by omega) hq]; simp

theorem c1_tick_at_2500 : ticks.isPrefixOf (c1Text.drop 2500) = true := by
  rw [c1drop_2500]
  exact isPrefixOf_self_append ticks _

theorem c1_tick_at_50197 : ticks.isPrefixOf (c1Text.drop 50197) = true := by
  rw [c1drop_50197]
  decide

theorem c1_first_tick : firstIndexFrom c1Text ticks 0 = some 2500 := by
  rw [firstIndexFrom]
  exact firstIndexFromAux_found ticks c1Text 0 2500 (by decide) c1_tick_at_2500 (by omega)
    c1Text 0 (List.drop_zero c1Text).symm (by omega)
    (fun q _ _ hq => ticks_prefix_head c1Text q (c1_no_tick_lt_2500 q hq))

theorem c1_second_tick : firstIndexFrom c1Text ticks 2503 = some 50197 := by
  rw [firstIndexFrom]
  refine firstIndexFromAux_found ticks c1Text 2503 50197 (by decide) c1_tick_at_50197 (by omega)
    c1Text 0 (List.drop_zero c1Text).symm (by omega)
    (fun q _ hq1 hq2 => ticks_prefix_head c1Text q ?_)
  rw [c1at_z q hq1 hq2]
  simp

theorem c1_no_third_tick : firstIndexFrom c1Text ticks 50200 = none := by
  rw [firstIndexFrom]
  refine firstIndexFromAux_not ticks c1Text 50200 c1Text 0 (List.drop_zero c1Text).symm
    (fun q _ hq => ?_)
  rw [drop_eq_nil_of_drop_eq_nil c1Text 50200 q c1drop_50200 hq]
  decide

theorem findCodeBlocksGo_cons (s : Str) (fuel i j k : Nat) (hf : 0 < fuel)
    (h1 : firstIndexFrom s ticks i = some j) (h2 : firstIndexFrom s ticks (j + 3) = some k) :
    findCodeBlocksGo s fuel i = (j, k + 3) :: findCodeBlocksGo s (fuel - 1) (k + 3) := by
  obtain ⟨f, rfl⟩ : ∃ f, fuel = f + 1 := ⟨fuel - 1, by omega⟩
  rw [findCodeBlocksGo]
  simp only [h1, h2]
  norm_num

theorem findCodeBlocksGo_nil (s : Str) (fuel i : Nat) (hf : 0 < fuel)
    (h1 : firstIndexFrom s ticks i = none) :
    findCodeBlocksGo s fuel i = [] := by
  obtain ⟨f, rfl⟩ : ∃ f, fuel = f + 1 := ⟨fuel - 1, by omega⟩
  rw [findCodeBlocksGo, h1]

theorem c1_findCodeBlocks : findCodeBlocks c1Text = [(2500, 50200)] := by
  have hlen : c1Text.length + 1 = 50201 := by rw [c1Text_length]
  rw [findCodeBlocks, hlen]
  rw [findCodeBlocksGo_cons c1Text 50201 0 2500 50197 (by norm_num) c1_first_tick
    (by norm_num [c1_second_tick])]
  rw [findCodeBlocksGo_nil c1Text (50201 - 1) (50197 + 3) (by norm_num)
    (by norm_num [c1_no_third_tick])]

/-! ## the five loop iterations on c1Text -/

theorem selectBoundary_q4 (text : Str) (headers : List Nat) (c e h : Nat)
    (h1 : boundaryStage1 headers c e = (h, 4)) :
    selectBoundary text headers c e = h := by
  simp only [selectBoundary, h1, boundaryStage2, boundaryStage3, boundaryStage4]
  norm_num

theorem c1end_A :
    chunkLoopEnd c1Text 800 [(2500, 50200)] [780, 1081, 1460, 1761] 0 = 780 := by
  simp only [chunkLoopEnd, c1Text_length]
  rw [show min (0 + 800) 50200 = 800 from by norm_num]
  rw [show applyCodeBlockGuard [(2500, 50200)] 0 800 = 800 from rfl]
  rw [if_pos (by norm_num)]
  exact selectBoundary_q4 c1Text _ 0 800 780 rfl

theorem c1end_B :
    chunkLoopEnd c1Text 800 [(2500, 50200)] [780, 1081, 1460, 1761] 780 = 1081 := by
  simp only [chunkLoopEnd, c1Text_length]
  rw [show min (780 + 800) 50200 = 1580 from by norm_num]
  rw [show applyCodeBlockGuard [(2500, 50200)] 780 1580 = 1580 from rfl]
  rw [if_pos (by norm_num)]
  exact selectBoundary_q4 c1Text _ 780 1580 1081 rfl

theorem c1end_C :
    chunkLoopEnd c1Text 800 [(2500, 50200)] [780, 1081, 1460, 1761] 1081 = 1460 := by
  simp only [chunkLoopEnd, c1Text_length]
  rw [show min (1081 + 800) 50200 = 1881 from by norm_num]
  rw [show applyCodeBlockGuard [(2500, 50200)] 1081 1881 = 1881 from rfl]
  rw [if_pos (by norm_num)]
  exact selectBoundary_q4 c1Text _ 1081 1881 1460 rfl

theorem c1end_D :
    chunkLoopEnd c1Text 800 [(2500, 50200)] [780, 1081, 1460, 1761] 1460 = 1761 := by
  simp only [chunkLoopEnd, c1Text_length]
  rw [show min (1460 + 800) 50200 = 2260 from by norm_num]
  rw [show applyCodeBlockGuard [(2500, 50200)] 1460 2260 = 2260 from rfl]
  rw [if_pos (by norm_num)]
  exact selectBoundary_q4 c1Text _ 1460 2260 1761 rfl

theorem c1end_E :
    chunkLoopEnd c1Text 800 [(2500, 50200)] [780, 1081, 1460, 1761] 1761 = 50200 := by
  simp only [chunkLoopEnd, c1Text_length]
  rw [show min (1761 + 800) 50200 = 2561 from by norm_num]
  rw [show applyCodeBlockGuard [(2500, 50200)] 1761 2561 = 50200 from rfl]
  rw [if_neg (by norm_num)]

theorem chunkLoop_step (text : Str) (S : Nat) (blocks : List (Nat × Nat))
    (headers : List Nat) (fuel c : Nat) (hf : 0 < fuel) (hc : c < text.length) :
    chunkLoop text S blocks headers fuel c =
      (chunkLoop text S blocks headers (fuel - 1)
          (chunkLoopEnd text S blocks headers c)).map
        (jsSubstring text c (chunkLoopEnd text S blocks headers c) :: ·) := by
  obtain ⟨f, rfl⟩ : ∃ f, fuel = f + 1 := ⟨fuel - 1, by omega⟩
  rw [chunkLoop, if_pos hc]
  norm_num

theorem chunkLoop_done (text : Str) (S : Nat) (blocks : List (Nat × Nat))
    (headers : List Nat) (fuel c : Nat) (hf : 0 < fuel) (hc : ¬ c < text.length) :
    chunkLoop text S blocks headers fuel c = some [] := by
  obtain ⟨f, rfl⟩ : ∃ f, fuel = f + 1 := ⟨fuel - 1, by omega⟩
  rw [chunkLoop, if_neg hc]

theorem c1_chunkLoop :
    chunkLoop c1Text 800 [(2500, 50200)] [780, 1081, 1460, 1761] 50201 0 =
      some [jsSubstring c1Text 0 780, jsSubstring c1Text 780 1081,
        jsSubstring c1Text 1081 1460, jsSubstring c1Text 1460 1761,
        jsSubstring c1Text 1761 50200] := by
  rw [chunkLoop_step c1Text 800 _ _ 50201 0 (by norm_num)
    (by rw [c1Text_length]; norm_num), c1end_A]
  rw [chunkLoop_step c1Text 800 _ _ (50201 - 1) 780 (by norm_num)
    (by rw [c1Text_length]; norm_num), c1end_B]
  rw [chunkLoop_step c1Text 800 _ _ (50201 - 1 - 1) 1081 (by norm_num)
    (by rw [c1Text_length]; norm_num), c1end_C]
  rw [chunkLoop_step c1Text 800 _ _ (50201 - 1 - 1 - 1) 1460 (by norm_num)
    (by rw [c1Text_length]; norm_num), c1end_D]
  rw [chunkLoop_step c1Text 800 _ _ (50201 - 1 - 1 - 1 - 1) 1761 (by norm_num)
    (by rw [c1Text_length]; norm_num), c1end_E]
  rw [chunkLoop_done c1Text 800 _ _ (50201 - 1 - 1 - 1 - 1 - 1) 50200 (by norm_num)
    (by rw [c1Text_length]; norm_num)]
  rfl

/-! ## the merge pass on the five chunks -/

theorem jsSubstring_length_eq (s : Str) (a b : Nat) (hab : a ≤ b) (hb : b ≤ s.length) :
    (jsSubstring s a b).length = b - a := by
  simp only [jsSubstring]
  rw [List.length_take, List.length_drop]
  omega

theorem c1sub1_len : (jsSubstring c1Text 0 780).length = 780 := by
  rw [jsSubstring_length_eq c1Text 0 780 (by omega) (by rw [c1Text_length]; omega)]

theorem c1sub2_len : (jsSubstring c1Text 780 1081).length = 301 := by
  rw [jsSubstring_length_eq c1Text 780 1081 (by omega) (by rw [c1Text_length]; omega)]

theorem c1sub3_len : (jsSubstring c1Text 1081 1460).length = 379 := by
  rw [jsSubstring_length_eq c1Text 1081 1460 (by omega) (by rw [c1Text_length]; omega)]

theorem c1sub4_len : (jsSubstring c1Text 1460 1761).length = 301 := by
  rw [jsSubstring_length_eq c1Text 1460 1761 (by omega) (by rw [c1Text_length]; omega)]

theorem c1sub5_len : (jsSubstring c1Text 1761 50200).length = 48439 := by
  rw [jsSubstring_length_eq c1Text 1761 50200 (by omega) (by rw [c1Text_length])]

theorem mergeGo_nil (M : Nat) (merged : List Str) (i : Nat) :
    mergeGo M [] merged i = merged := rfl

theorem mergeGo_skip (M : Nat) (cur : Str) (rest merged : List Str) (i : Nat)
    (h : ¬ (cur.length < MIN_CHUNK_SIZE ∧ 0 < i)) :
    mergeGo M (cur :: rest) merged i = mergeGo M rest (merged ++ [cur]) (i + 1) := by
  rw [mergeGo, if_neg h]

theorem mergeGo_merge (M : Nat) (cur prev : Str) (rest merged : List Str) (i : Nat)
    (h1 : cur.length < MIN_CHUNK_SIZE ∧ 0 < i) (h2 : merged.getLast? = some prev)
    (h3 : prev.length + cur.length ≤ M) :
    mergeGo M (cur :: rest) merged i =
      mergeGo M rest (merged.dropLast ++ [prev ++ ['\n', '\n'] ++ cur]) (i + 1) := by
  rw [mergeGo, if_pos h1]
  simp only [h2]
  rw [if_pos h3]

theorem mergeGo_toolong (M : Nat) (cur prev : Str) (rest merged : List Str) (i : Nat)
    (h1 : cur.length < MIN_CHUNK_SIZE ∧ 0 < i) (h2 : merged.getLast? = some prev)
    (h3 : ¬ prev.length + cur.length ≤ M) :
    mergeGo M (cur :: rest) merged i = mergeGo M rest (merged ++ [cur]) (i + 1) := by
  rw [mergeGo, if_pos h1]
  simp only [h2]
  rw [if_neg h3]

theorem c1_merge :
    mergeSmallChunks 800 [jsSubstring c1Text 0 780, jsSubstring c1Text 780 1081,
        jsSubstring c1Text 1081 1460, jsSubstring c1Text 1460 1761,
        jsSubstring c1Text 1761 50200] =
      [jsSubstring c1Text 0 780,
        jsSubstring c1Text 780 1081 ++ ['\n', '\n'] ++ jsSubstring c1Text 1081 1460,
        jsSubstring c1Text 1460 1761, jsSubstring c1Text 1761 50200] := by
  rw [mergeSmallChunks]
  rw [mergeGo_skip 800 _ _ _ 0 (by intro h; exact absurd h.2 (by norm_num))]
  rw [mergeGo_toolong 800 _ (jsSubstring c1Text 0 780) _ _ 1
    (by rw [c1sub2_len]; exact ⟨by norm_num [MIN_CHUNK_SIZE], by norm_num⟩)
    (by rfl)
    (by rw [c1sub1_len, c1sub2_len]; norm_num)]
  rw [mergeGo_merge 800 _ (jsSubstring c1Text 780 1081) _ _ 2
    (by rw [c1sub3_len]; exact ⟨by norm_num [MIN_CHUNK_SIZE], by norm_num⟩)
    (by rfl)
    (by rw [c1sub2_len, c1sub3_len]; norm_num)]
  rw [mergeGo_toolong 800 _
    (jsSubstring c1Text 780 1081 ++ ['\n', '\n'] ++ jsSubstring c1Text 1081 1460) _ _ 3
    (by rw [c1sub4_len]; exact ⟨by norm_num [MIN_CHUNK_SIZE], by norm_num⟩)
    (by rfl)
    (by rw [List.length_append, List.length_append, c1sub2_len, c1sub3_len, c1sub4_len]
        norm_num)]
  rw [mergeGo_skip 800 _ _ _ 4
    (by rw [c1sub5_len]; intro h; exact absurd h.1 (by norm_num [MIN_CHUNK_SIZE]))]
  rw [mergeGo_nil]
  rfl

/-- The joined length of the merged output is 50202. -/
theorem c1_joined_length :
    (joinChunks [jsSubstring c1Text 0 780,
        jsSubstring c1Text 780 1081 ++ ['\n', '\n'] ++ jsSubstring c1Text 1081 1460,
        jsSubstring c1Text 1460 1761, jsSubstring c1Text 1761 50200]).length = 50202 := by
  rw [joinChunks, List.flatten_cons, List.flatten_cons, List.flatten_cons,
    List.flatten_cons, List.flatten_nil, List.append_nil]
  rw [List.length_append, List.length_append, List.length_append,
    List.length_append, List.length_append]
  rw [c1sub1_len, c1sub2_len, c1sub3_len, c1sub4_len, c1sub5_len]
  norm_num

theorem c1_chunkTextJS :
    (chunkTextJS? c1Text 800).map (fun cs => (joinChunks cs).length) = some 50202 := by
  rw [chunkTextJS?]
  rw [if_neg (by rw [c1Text_length]; norm_num), if_neg (by rw [c1Text_length]; norm_num)]
  rw [c1Text_length]
  rw [show getOptimalChunkSize 50200 = 50200 from rfl]
  rw [show min 800 50200 = 800 from by norm_num]
  rw [show (50200 + 1 : Nat) = 50201 from rfl]
  rw [c1_findCodeBlocks, c1_findHeaders, c1_chunkLoop]
  simp only [Option.map_some']
  rw [c1_merge, c1_joined_length]


/-! # Claim theorems -/

/-- C1 (amended): for the TypeScript `chunkText` of
`src/src/utils/textProcessing.ts`, concatenating the returned chunks in
index order yields exactly the input text — boundary selection never
drops, duplicates or inserts a character.  (The part_003 variant runs
the same loop, but its small-chunk merge pass inserts a two-character
`"\n\n"` separator at every merge, so its concatenation reproduces the
text only when no merge occurs; see the counterexample.) -/
theorem chunkText_reconstruction (text : Str) (maxChunkSize : Nat) (cs : List Str)
    (h : chunkTextTS? text maxChunkSize = some cs) : joinChunks cs = text := by
  rw [chunkTextTS?] at h
  split at h
  · cases h
    rw [joinChunks, List.flatten_cons, List.flatten_nil, List.append_nil]
  · have := chunkLoop_join text maxChunkSize (findCodeBlocks text) (findHeaders text)
      (text.length + 1) 0 cs h
    rw [this, List.drop_zero]

theorem chunkText_reconstruction_witness :
    chunkTextTS? "aaa".data 1 = some [['a'], ['a'], ['a']] ∧
      joinChunks [['a'], ['a'], ['a']] = "aaa".data :=
  ⟨by decide, chunkText_reconstruction "aaa".data 1 [['a'], ['a'], ['a']] (by decide)⟩

/-- Counterexample for C1: the part_003 `chunkText` does not satisfy
reconstruction.  On the 50200-character `c1Text` (four short markdown
header sections followed by one large fenced code block) with
`maxChunkSize = 800`, the merge pass joins the 301- and 379-character
chunks with a `"\n\n"` separator, so the concatenation of the returned
chunks has length 50202 — two characters more than the input text. -/
theorem chunkText_merge_inserts_separator :
    (chunkTextJS? c1Text 800).map (fun cs => (joinChunks cs).length) = some 50202 ∧
    c1Text.length = 50200 :=
  ⟨c1_chunkTextJS, c1Text_length⟩

/-- C2: the claim that no chunk boundary falls strictly inside a fenced
code block is violated by the code.  On this 25-character input with
`maxChunkSize = 8`, the code-block guard first extends the tentative
end to the block end 15, but the backward paragraph-break search then
moves it to 10 — strictly inside the block's span `[4, 15)` — so the
first chunk ends in the middle of the fence, contradicting the code's
own comment "Don't break in the middle of a code block". -/
theorem chunkText_boundary_inside_code_block :
    findCodeBlocks c2Text = [(4, 15)] ∧
    chunkTextTS? c2Text 8 =
      some ["aaaa```b\n\n".data, "cc```ddd".data, "ddddddd".data] ∧
    4 < ("aaaa```b\n\n".data).length ∧ ("aaaa```b\n\n".data).length < 15 := by
  refine ⟨by decide, by decide, by decide, by decide⟩

/-- C3: one dispatched task that settles after `REQUEST_TIMEOUT` has
its `activeRequests` decremented twice — once by the timeout callback
(part_003 lines 843-848) and once by `executeTask`'s unconditional
`finally` (lines 886-894) — so `activeRequests` ends at `-1` after one
increment and two decrements, contradicting the
increment-once/decrement-once invariant. -/
theorem workerPool_double_decrement :
    (runPool [.addTask, .timeoutFire, .settleSuccess]).active = -1 ∧
    (runPool [.addTask, .timeoutFire, .settleSuccess]).incs = 1 ∧
    (runPool [.addTask, .timeoutFire, .settleSuccess]).decs = 2 := by
  refine ⟨by decide, by decide, by decide⟩

/-- C4 (counterexample): with `maxRetries = 3`, a unit of work whose
every attempt fails is attempted exactly 3 times — not
`maxRetries + 1 = 4` as claimed — because the loop
`while (retryCount < maxRetries)` counts every attempt, not only the
retries.  (The same run also shows a terminal error is not attempted
exactly once: the code never inspects the error classification and
retries every failure alike.) -/
theorem processChunk_attempt_count_counterexample :
    processChunkRun 3 (fun _ => CallOutcome.failure) = (3, [2000, 4000], false) ∧
    (processChunkRun 3 (fun _ => CallOutcome.failure)).1 ≠ 3 + 1 := by
  refine ⟨by decide, by decide⟩

/-- C4 (amended): a unit of work whose every attempt fails (whether the
errors are transient or terminal — `processChunk` never inspects the
classification) is attempted exactly `maxRetries` times, with backoff
waits `2^1·1000, …, 2^(maxRetries-1)·1000` milliseconds between
attempts, and the failure is then reported to the caller. -/
theorem processChunk_retry_budget (m : Nat) (call : Nat → CallOutcome)
    (hm : 1 ≤ m) (hfail : ∀ i, call i = CallOutcome.failure) :
    processChunkRun m call = (m, expWaits 1 (m - 1), false) := by
  rw [processChunkRun]
  have := processChunkGo_always_fail call m hfail m 0 (by omega) (by omega)
  rw [this]
  norm_num

theorem processChunk_retry_budget_witness :
    (1 ≤ 3 ∧ (∀ i : Nat, (fun _ => CallOutcome.failure) i = CallOutcome.failure)) ∧
      processChunkRun 3 (fun _ => CallOutcome.failure) = (3, expWaits 1 2, false) :=
  ⟨⟨by decide, fun _ => rfl⟩,
    processChunk_retry_budget 3 (fun _ => CallOutcome.failure) (by decide) (fun _ => rfl)⟩

/-- C5: for every monotone sequence of limiter events, (a) the stored
`requestTimestamps` never hold more than `maxRequestsPerMinute` entries
at any instant (so in particular never more than the maximum younger
than 60 seconds), and (b) across any sliding 60-second window the
number of granted `acquire` calls never exceeds the maximum. -/
theorem rateLimiter_window_bound (m : Nat) (evs : List RLEvent)
    (hmono : List.Pairwise (· ≤ ·) (evs.map evTime)) :
    (∀ n, (runRL m (evs.take n)).timestamps.length ≤ m) ∧
    (∀ a, ((runRL m evs).granted.map Prod.snd).countP (inWindow a) ≤ m) := by
  constructor
  · intro n
    rw [runRL]
    exact runRL_timestamps_le m (evs.take n) (initialRL m) rfl (by simp [initialRL])
  · have hinit : RLInv m 0 (initialRL m) := by
      refine ⟨rfl, ?_, ?_, ?_, ?_⟩
      · intro g hg; cases hg
      · exact List.Pairwise.nil
      · rfl
      · intro k hk; cases hk
    have hchain0 : List.Chain' (· ≤ ·) (0 :: evs.map evTime) := by
      rw [List.chain'_cons']
      exact ⟨fun y _ => Nat.zero_le y, hmono.chain'⟩
    obtain ⟨T', hfin⟩ := runRL_inv m evs (initialRL m) 0 hinit hchain0
    intro a
    exact window_bound_of_splitProp m _ hfin.2.2.1 hfin.2.2.2.2 a

theorem rateLimiter_window_bound_witness :
    List.Pairwise (· ≤ ·)
      ([RLEvent.request 1 0, .request 2 0, .request 3 1, .request 4 70000].map evTime) ∧
    ((runRL 2 [RLEvent.request 1 0, .request 2 0, .request 3 1, .request 4 70000]).granted.map
        Prod.snd).countP (inWindow 0) ≤ 2 :=
  ⟨by decide,
    (rateLimiter_window_bound 2
      [RLEvent.request 1 0, .request 2 0, .request 3 1, .request 4 70000] (by decide)).2 0⟩

/-- C6 (counterexample): with a budget of 1 request per minute, caller
1 takes the slot at time 0 and caller 2 is queued at time 1.  When the
window frees at time 60000, late arrival 3 hits the fast path of
`waitForAvailableSlot` — which never looks at the waiting queue — and
is granted immediately, while caller 2 is still waiting at the next
interval tick.  A waiter already in the waiting list is thus skipped by
a later arrival. -/
theorem rateLimiter_fast_path_overtakes :
    (runRL 1 [.request 1 0, .request 2 1, .request 3 60000, .tick 60050]).granted =
      [(1, 0), (3, 60000)] ∧
    (runRL 1 [.request 1 0, .request 2 1, .request 3 60000, .tick 60050]).waitingQueue =
      [2] := by
  refine ⟨by decide, by decide⟩

/-- C6 (amended): among the waiters in the waiting list, slots are
granted strictly first-requested-first-served — in every run the ids
served from the queue followed by the ids still waiting are exactly the
ids enqueued, in order.  The fast path, however, can hand a freed slot
to a later arrival ahead of every queued waiter (see the
counterexample). -/
theorem rateLimiter_queue_fifo (m : Nat) (evs : List RLEvent) :
    (runRL m evs).servedFromQueue ++ (runRL m evs).waitingQueue =
      (runRL m evs).enqueued := by
  rw [runRL]
  exact runRL_fifo_aux evs (initialRL m) rfl

/-- C7 (counterexample): the non-streaming orchestrator
(`route.ts` `POST`) issues a meta-summary call already for 3 chunk
summaries, although 3 ≤ 4: its only direct path is the single-summary
case, so "at most 4 valid summaries skips the second LLM call" fails
for it. -/
theorem route_meta_call_at_three :
    routeSecondCallCount 3 = 1 ∧ (3 : Nat) ≤ 4 := by
  refine ⟨by decide, by decide⟩

/-- C7 (amended): the streaming orchestrator (part_003) skips the
second LLM call and directly concatenates under numbered section
headers whenever at most 4 valid summaries exist, and issues exactly
one meta-summary call when more than 4 exist; the non-streaming
`route.ts` orchestrator instead issues the meta-summary call whenever
at least two summaries exist. -/
theorem aggregation_policy :
    (∀ n, n ≤ 4 → streamSecondCallCount n = 0) ∧
    (∀ n, 4 < n → streamSecondCallCount n = 1) ∧
    (∀ n, 2 ≤ n → routeSecondCallCount n = 1) ∧
    streamCombine ["a".data, "b".data, "c".data] =
      "## Part 1\n\na\n\n---\n\n## Part 2\n\nb\n\n---\n\n## Part 3\n\nc".data := by
  refine ⟨?_, ?_, ?_, by decide⟩
  · intro n hn
    rw [streamSecondCallCount, streamSkipsMeta]
    rw [if_pos]
    rw [Bool.or_eq_true, decide_eq_true_eq]
    exact Or.inl hn
  · intro n hn
    rw [streamSecondCallCount, streamSkipsMeta]
    rw [if_neg]
    rw [Bool.or_eq_true, decide_eq_true_eq, decide_eq_true_eq]
    omega
  · intro n hn
    rw [routeSecondCallCount, if_neg]
    omega

theorem aggregation_policy_witness :
    ((3 : Nat) ≤ 4 ∧ (5 : Nat) > 4 ∧ (2 : Nat) ≤ 2) ∧
      streamSecondCallCount 3 = 0 ∧ streamSecondCallCount 5 = 1 ∧
      routeSecondCallCount 2 = 1 :=
  ⟨⟨by decide, by decide, by decide⟩,
    (aggregation_policy).1 3 (by decide),
    (aggregation_policy).2.1 5 (by decide),
    (aggregation_policy).2.2.1 2 (by decide)⟩

/-- C8: when every chunk fails, the batch error handler stores the
placeholder *string* `"[Error processing this section]"` in each slot,
so `summaries.filter(s => s !== null)` is never empty and the hard
error `"All chunks failed processing"` is unreachable: with two chunks
whose batches both fail, the handler finalizes an ordinary result made
of placeholders instead of raising the hard error the claim (and the
code's own `throw`) call for. -/
theorem all_chunks_failed_unreachable :
    finalizeSummaries (markBatchFailures [none, none] 0 2) =
      Except.ok [errorPlaceholder, errorPlaceholder] := by
  rfl

/-- C9 (counterexample): on `"aaaaa\n\nbbbb"` with `maxChunkSize = 5`
the paragraph break starting exactly at the tentative end is accepted
(`paragraphBreak > endIndex - 500` does not bound it above), so the
first chunk is 7 characters long — more than 5 — although the text has
no protected span and its longest unbreakable token has length 5. -/
theorem chunk_size_counterexample :
    chunkTextTS? c9Text 5 = some ["aaaaa\n\n".data, "bbbb".data] ∧
    findCodeBlocks c9Text = [] ∧
    longestTokenLen c9Text = 5 ∧
    ¬ ("aaaaa\n\n".data).length ≤ 5 := by
  refine ⟨by decide, by decide, by decide, by decide⟩

/-- C9 (amended): on a text with no fenced code block, every chunk of
the TypeScript `chunkText` has length at most `maxChunkSize + 2` (a
boundary match starting exactly at the tentative end can overshoot by
the matched separator, up to 2 characters), and the part_003 merge pass
preserves that bound (a merge concatenates two chunks whose lengths sum
to at most `maxChunkSize`, plus the 2-character separator). -/
theorem chunk_size_bound :
    (∀ (text : Str) (S : Nat) (cs : List Str), findCodeBlocks text = [] →
      chunkTextTS? text S = some cs → ∀ x ∈ cs, x.length ≤ S + 2) ∧
    (∀ (M : Nat) (chunks : List Str), (∀ x ∈ chunks, x.length ≤ M + 2) →
      ∀ y ∈ mergeSmallChunks M chunks, y.length ≤ M + 2) := by
  constructor
  · intro text S cs hnb h
    rw [chunkTextTS?] at h
    split at h
    · next hfits =>
      cases h
      intro x hx
      rw [List.mem_singleton] at hx
      subst hx
      omega
    · rw [hnb] at h
      exact chunkLoop_size text S (findHeaders text) (text.length + 1) 0 cs h
  · intro M chunks hb y hy
    rw [mergeSmallChunks] at hy
    exact mergeGo_size M chunks [] 0 (by intro x hx; cases hx) hb y hy

theorem chunk_size_bound_witness :
    (findCodeBlocks "aaaa".data = [] ∧ chunkTextTS? "aaaa".data 2 =
        some ["aa".data, "aa".data]) ∧
      (∀ x ∈ ["aa".data, "aa".data], List.length x ≤ 2 + 2) ∧
      (∀ y ∈ mergeSmallChunks 2 ["aa".data, "aa".data], List.length y ≤ 2 + 2) :=
  ⟨⟨by decide, by decide⟩,
    (chunk_size_bound).1 "aaaa".data 2 ["aa".data, "aa".data] (by decide) (by decide),
    (chunk_size_bound).2 2 ["aa".data, "aa".data]
      ((chunk_size_bound).1 "aaaa".data 2 ["aa".data, "aa".data] (by decide) (by decide))⟩

/-- C10: for every text and every `maxChunkSize ≥ 1`, both `chunkText`
variants terminate and return a non-empty chunk list: every loop
iteration strictly advances `currentIndex` (accepted boundaries lie
strictly after it, the hard cut advances by the chunk size, and the
code-block extension only moves the end forward), so fuel
`text.length + 1` always suffices. -/
theorem chunkText_terminates (text : Str) (S : Nat) (hS : 1 ≤ S) :
    (∃ cs, chunkTextTS? text S = some cs ∧ cs ≠ []) ∧
    (∃ cs, chunkTextJS? text S = some cs ∧ cs ≠ []) := by
  constructor
  · rw [chunkTextTS?]
    split
    · exact ⟨[text], rfl, by simp⟩
    · next hlong =>
      obtain ⟨cs, hcs, hne⟩ := chunkLoop_some text S (findCodeBlocks text)
        (findHeaders text) hS (text.length + 1) 0 (by omega)
      exact ⟨cs, hcs, hne (by omega)⟩
  · rw [chunkTextJS?]
    split
    · exact ⟨[text], rfl, by simp⟩
    · split
      · exact ⟨[text], rfl, by simp⟩
      · next h1 h2 =>
        have heff : 1 ≤ min S (getOptimalChunkSize text.length) := by
          rw [getOptimalChunkSize]
          split
          · omega
          · split
            · omega
            · omega
        obtain ⟨cs, hcs, hne⟩ := chunkLoop_some text
          (min S (getOptimalChunkSize text.length)) (findCodeBlocks text)
          (findHeaders text) heff (text.length + 1) 0 (by omega)
        refine ⟨mergeSmallChunks S cs, ?_, ?_⟩
        · rw [hcs]; rfl
        · rw [mergeSmallChunks]
          exact mergeGo_ne_nil S cs [] 0 (Or.inr (hne (by omega)))

theorem chunkText_terminates_witness :
    (1 ≤ 1 ∧ (∃ cs, chunkTextTS? "ab".data 1 = some cs ∧ cs ≠ [])) ∧
      (∃ cs, chunkTextJS? "ab".data 1 = some cs ∧ cs ≠ []) :=
  ⟨⟨by decide, (chunkText_terminates "ab".data 1 (by decide)).1⟩,
    (chunkText_terminates "ab".data 1 (by decide)).2⟩

end Summify
